import Mathlib

/-!
Verification development for the TorrServer DLNA-title subsystem.

The definitions below are a shallow embedding of the Go sources:
  * `server/dlnatitles/normalize.go` (title generator, coordinator, lookup),
  * the `settings` DLNA-title cache chain (`hasDLNATitleBucket`,
    `storeDLNATitles`, `removeDLNATitleBucket`, `createDLNATitleBucket`,
    `HasDLNATitleBucket`, `StoreDLNATitles`, `GetDLNATitle`, `RemDLNATitles`),
  * `server/torr/dlnacache.go` (stream-link projector: `sanitizeFileName`,
    `createStreamLinkFiles` naming loop, `buildStreamLink`),
  * the per-torrent lock registry `lockTorrent` (as a small transition system).

Go maps are embedded as association lists with map-style insertion
(`assocSet`: replace any binding of the key, lookup is `List.lookup`).
Go byte slices holding strings are embedded as `String` (a nil slice is the
empty string).  `strings.TrimSpace` is embedded over the character list with
`Char.isWhitespace` as the space predicate.
-/

/-- Map-style insert into an association list: any existing binding of `k`
is dropped and the new binding appended, so `List.lookup` finds `v`.  Embeds
a Go `m[k] = v` map assignment. -/
def assocSet {α : Type} (l : List (String × α)) (k : String) (v : α) :
    List (String × α) :=
  (l.filter (fun e => e.1 ≠ k)) ++ [(k, v)]

/-- Go `strings.TrimSpace` (leading and trailing whitespace removed),
embedded over the character list. -/
def goTrimSpace (s : String) : String :=
  String.mk (((s.data.dropWhile Char.isWhitespace).reverse.dropWhile
    Char.isWhitespace).reverse)

/-- Go `strings.ToLower`, embedded over the character list (per-character
lowering). -/
def goToLower (s : String) : String :=
  String.mk (s.data.map Char.toLower)

/- ## Title generator (`server/dlnatitles/normalize.go`)

The OpenAI HTTP collaborator is abstracted: one attempt of
`requestNormalizedTitle` observes one `HttpResult` (transport failure, or a
response with a status code and a decoded body).  The prompt/payload
construction does not influence the observable behaviour (the provider is
abstract), so the payload is not carried around. -/

/-- Decoded body of one provider response: JSON decoding failed, or the
list of choice texts (`Choices[i].Message.Content`). -/
inductive RespBody where
  | decodeErr : RespBody
  | choices (cs : List String) : RespBody
deriving DecidableEq, Repr

/-- Result of one HTTP attempt against the provider: request/transport
failure, or a response with an HTTP status code and body. -/
inductive HttpResult where
  | reqErr : HttpResult
  | resp (status : Nat) (body : RespBody) : HttpResult
deriving DecidableEq, Repr

/-- Failure cases of a single `requestNormalizedTitle` attempt. -/
inductive ReqError where
  | transport : ReqError
  | badStatus (code : Nat) : ReqError
  | decodeFailed : ReqError
  | emptyTitle : ReqError
deriving DecidableEq, Repr

/-- `requestNormalizedTitle` (normalize.go:227-282): fail on transport
error, on a non-2xx status, on a decode error, on an absent choice, or on a
whitespace-only choice text; otherwise return the trimmed text. -/
def requestNormalizedTitle : HttpResult → Except ReqError String
  | .reqErr => .error .transport
  | .resp code body =>
    if code < 200 ∨ 300 ≤ code then .error (.badStatus code)
    else
      match body with
      | .decodeErr => .error .decodeFailed
      | .choices [] => .error .emptyTitle
      | .choices (c :: _) =>
        let title := goTrimSpace c
        if title = "" then .error .emptyTitle else .ok title

/-- Failure cases of `generateNormalizedTitle`. -/
inductive GenError where
  | configNotSet : GenError
  | callFailed (attempt : Nat) (e : ReqError) : GenError
  | inconsistent : GenError
deriving DecidableEq, Repr

/-- `generateNormalizedTitle` (normalize.go:168-225): triple-call
consistency voting.  `call n` is the `HttpResult` observed by attempt `n`.
Returns the voting outcome together with the number of provider calls
issued.  In the Go code the error path returns the pair `(path, err)`; the
`path` component is recovered by the caller (`fallbackTitle` below). -/
def generateNormalizedTitle (apiKey model : String)
    (call : Nat → HttpResult) : Except GenError String × Nat :=
  if apiKey = "" ∨ model = "" then (.error .configNotSet, 0)
  else
    match requestNormalizedTitle (call 1) with
    | .error e => (.error (.callFailed 1 e), 1)
    | .ok first =>
      match requestNormalizedTitle (call 2) with
      | .error e => (.error (.callFailed 2 e), 2)
      | .ok second =>
        if first = second then (.ok first, 2)
        else
          match requestNormalizedTitle (call 3) with
          | .error e => (.error (.callFailed 3 e), 3)
          | .ok third =>
            if third = first then (.ok first, 3)
            else if third = second then (.ok second, 3)
            else (.error .inconsistent, 3)

/-- C1: triple-call consistency voting of `generateNormalizedTitle`:
at most three provider calls are ever issued; a failing attempt aborts
immediately with an error and no further calls; matching first and second
trimmed texts return the first after exactly two calls; otherwise the third
call decides — its text is accepted iff it equals the first or the second
(preferring the first), and three pairwise distinct texts yield the
inconsistent-titles error. -/
theorem C1_triple_call_voting (apiKey model : String)
    (call : Nat → HttpResult) (hk : apiKey ≠ "") (hm : model ≠ "") :
    (generateNormalizedTitle apiKey model call).2 ≤ 3 ∧
    (∀ e, requestNormalizedTitle (call 1) = .error e →
      generateNormalizedTitle apiKey model call =
        (.error (.callFailed 1 e), 1)) ∧
    (∀ t₁ e, requestNormalizedTitle (call 1) = .ok t₁ →
      requestNormalizedTitle (call 2) = .error e →
      generateNormalizedTitle apiKey model call =
        (.error (.callFailed 2 e), 2)) ∧
    (∀ t₁, requestNormalizedTitle (call 1) = .ok t₁ →
      requestNormalizedTitle (call 2) = .ok t₁ →
      generateNormalizedTitle apiKey model call = (.ok t₁, 2)) ∧
    (∀ t₁ t₂ e, requestNormalizedTitle (call 1) = .ok t₁ →
      requestNormalizedTitle (call 2) = .ok t₂ → t₁ ≠ t₂ →
      requestNormalizedTitle (call 3) = .error e →
      generateNormalizedTitle apiKey model call =
        (.error (.callFailed 3 e), 3)) ∧
    (∀ t₁ t₂ t₃, requestNormalizedTitle (call 1) = .ok t₁ →
      requestNormalizedTitle (call 2) = .ok t₂ → t₁ ≠ t₂ →
      requestNormalizedTitle (call 3) = .ok t₃ →
      generateNormalizedTitle apiKey model call =
        (if t₃ = t₁ then (.ok t₁, 3)
         else if t₃ = t₂ then (.ok t₂, 3)
         else (.error .inconsistent, 3))) := by
  have hcfg : ¬ (apiKey = "" ∨ model = "") := by
    intro h; rcases h with h | h
    · exact hk h
    · exact hm h
  refine ⟨?_, ?_, ?_, ?_, ?_, ?_⟩
  · unfold generateNormalizedTitle
    rw [if_neg hcfg]
    rcases h1 : requestNormalizedTitle (call 1) with e | t₁ <;> simp only []
    · simp
    rcases h2 : requestNormalizedTitle (call 2) with e | t₂ <;> simp only []
    · simp
    by_cases h12 : t₁ = t₂
    · simp [h12]
    · simp only [if_neg h12]
      rcases h3 : requestNormalizedTitle (call 3) with e | t₃ <;> simp only []
      · simp
      by_cases h31 : t₃ = t₁
      · simp [h31]
      by_cases h32 : t₃ = t₂ <;> simp [h31, h32]
      split <;> simp
  · intro e h1
    unfold generateNormalizedTitle
    rw [if_neg hcfg, h1]
  · intro t₁ e h1 h2
    unfold generateNormalizedTitle
    rw [if_neg hcfg, h1, h2]
  · intro t₁ h1 h2
    unfold generateNormalizedTitle
    rw [if_neg hcfg, h1, h2]
    simp
  · intro t₁ t₂ e h1 h2 hne h3
    unfold generateNormalizedTitle
    rw [if_neg hcfg, h1, h2]
    simp only [if_neg hne, h3]
  · intro t₁ t₂ t₃ h1 h2 hne h3
    unfold generateNormalizedTitle
    rw [if_neg hcfg, h1, h2]
    simp only [if_neg hne, h3]

/-- Witness for C1: a concrete provider answering A, B, A makes the voting
return A after exactly three calls. -/
theorem C1_triple_call_voting_witness :
    generateNormalizedTitle "k" "m"
      (fun n => .resp 200 (.choices [if n = 2 then "B" else "A"])) =
      (.ok "A", 3) := by
  have h := C1_triple_call_voting "k" "m"
    (fun n => .resp 200 (.choices [if n = 2 then "B" else "A"]))
    (by decide) (by decide)
  have h5 := h.2.2.2.2.2 "A" "B" "A" rfl rfl (by decide) rfl
  simpa using h5

/- ## Layered cache backend (`settings` chain in normalize.go:283-542)

The backend chain is the closed set of kinds the type switch in
`hasDLNATitleBucket` / `removeDLNATitleBucket` / `storeDLNATitles`
dispatches on: a read-through cache (`DBReadCache`, with a listings cache
keyed by xpath and a data cache keyed by (xpath, key)), an xpath router
(`XPathDBRouter`), and the durable bolt store (`TDB`, one sub-bucket per
torrent hash under the root bucket `DLNATitles`).  The router is modelled
from the spec: `getDBForXPath` deterministically selects the store
registered for the `DLNATitles/` prefix, carried here as its `inner` field
(`none` when no store is routed). -/

inductive TorrServerDB where
  | readCache (listCache : List (String × List String))
      (dataCache : List ((String × String) × String))
      (inner : Option TorrServerDB) : TorrServerDB
  | router (inner : Option TorrServerDB) : TorrServerDB
  | tdb (buckets : List (String × List (String × String))) : TorrServerDB

/-- `TDB.deleteDLNATitleBucket` (normalize.go:478-493): delete the
sub-bucket named `hashHex` (absent sub-bucket is a no-op). -/
def deleteDLNATitleBucket (buckets : List (String × List (String × String)))
    (hashHex : String) : List (String × List (String × String)) :=
  buckets.filter (fun b => b.1 ≠ hashHex)

/-- `TDB.createDLNATitleBucket` (normalize.go:513-542): reject an empty
titles map; creating an already-existing sub-bucket is a no-op (first
writer wins); otherwise create the sub-bucket and put every entry, all in
one transaction. -/
def createDLNATitleBucket (buckets : List (String × List (String × String)))
    (hashHex : String) (titles : List (String × String)) :
    List (String × List (String × String)) :=
  if titles.isEmpty then buckets
  else if (buckets.lookup hashHex).isSome then buckets
  else buckets ++ [(hashHex, titles)]

/-- `hasDLNATitleBucket` (normalize.go:406-441): existence probe walking
the chain; at the read cache a cached listing or any cached data key with
the bucket prefix answers true, else the probe delegates inward; the
router delegates to the routed store; the durable layer checks sub-bucket
presence. -/
def hasDLNATitleBucket : TorrServerDB → String → Bool
  | .readCache listCache dataCache inner, hashHex =>
    let pfx := "DLNATitles/" ++ hashHex
    if (listCache.lookup pfx).isSome then true
    else if dataCache.any (fun e => e.1.1 = pfx) then true
    else
      match inner with
      | some d => hasDLNATitleBucket d hashHex
      | none => false
  | .router inner, hashHex =>
    match inner with
    | some d => hasDLNATitleBucket d hashHex
    | none => false
  | .tdb buckets, hashHex => (buckets.lookup hashHex).isSome

/-- `removeDLNATitleBucket` (normalize.go:375-404): purge the bucket
prefix from both cache maps, then delegate inward; the router delegates to
the routed store; the durable layer deletes the sub-bucket. -/
def removeDLNATitleBucket : TorrServerDB → String → TorrServerDB
  | .readCache listCache dataCache inner, hashHex =>
    let pfx := "DLNATitles/" ++ hashHex
    .readCache (listCache.filter (fun e => e.1 ≠ pfx))
      (dataCache.filter (fun e => e.1.1 ≠ pfx))
      (match inner with
       | some d => some (removeDLNATitleBucket d hashHex)
       | none => none)
  | .router inner, hashHex =>
    .router (match inner with
      | some d => some (removeDLNATitleBucket d hashHex)
      | none => none)
  | .tdb buckets, hashHex => .tdb (deleteDLNATitleBucket buckets hashHex)

/-- `storeDLNATitles` (chain level, normalize.go:443-476): purge the
bucket prefix from both cache maps, then delegate inward; the router
delegates to the routed store; the durable layer creates the sub-bucket. -/
def storeDLNATitles : TorrServerDB → String → List (String × String) →
    TorrServerDB
  | .readCache listCache dataCache inner, hashHex, titles =>
    let pfx := "DLNATitles/" ++ hashHex
    .readCache (listCache.filter (fun e => e.1 ≠ pfx))
      (dataCache.filter (fun e => e.1.1 ≠ pfx))
      (match inner with
       | some d => some (storeDLNATitles d hashHex titles)
       | none => none)
  | .router inner, hashHex, titles =>
    .router (match inner with
      | some d => some (storeDLNATitles d hashHex titles)
      | none => none)
  | .tdb buckets, hashHex, titles =>
    .tdb (createDLNATitleBucket buckets hashHex titles)

/-- Modelled from the spec: the generic point read `TorrServerDB.Get`
(used by `settings.GetDLNATitle`) is not part of the sources; per the spec
the read-through layer returns its cached blob for `(xpath, key)` or
delegates inward (re-caching of the result is omitted — it does not change
the returned value), the router delegates to the routed store, and the
durable layer returns the entry of the xpath's sub-bucket. -/
def dbGet : TorrServerDB → String → String → String
  | .readCache _ dataCache inner, xpath, key =>
    match dataCache.lookup (xpath, key) with
    | some v => v
    | none =>
      match inner with
      | some d => dbGet d xpath key
      | none => ""
  | .router inner, xpath, key =>
    match inner with
    | some d => dbGet d xpath key
    | none => ""
  | .tdb buckets, xpath, key =>
    match buckets.find? (fun b => xpath = "DLNATitles/" ++ b.1) with
    | some b => (b.2.lookup key).getD ""
    | none => ""

/-- The layers of a backend chain, outermost first (used to state the
"at every layer" coherence claims). -/
def layers : TorrServerDB → List TorrServerDB
  | .readCache listCache dataCache inner =>
    .readCache listCache dataCache inner ::
      (match inner with
       | some d => layers d
       | none => [])
  | .router inner =>
    .router inner ::
      (match inner with
       | some d => layers d
       | none => [])
  | .tdb buckets => [.tdb buckets]

/-- The standard three-layer chain: in-memory read cache over the xpath
router over the durable bolt store. -/
def chain3 (listCache : List (String × List String))
    (dataCache : List ((String × String) × String))
    (buckets : List (String × List (String × String))) : TorrServerDB :=
  .readCache listCache dataCache (some (.router (some (.tdb buckets))))

/- ## Settings-level cache API (normalize.go:283-373)

`tdbOpen` models `tdb != nil` (the durable store handle is open);
`readOnly` models `settings.ReadOnly`. -/

structure SettingsState where
  tdbOpen : Bool
  readOnly : Bool
  db : TorrServerDB

/-- `normalizeDLNAHash` (normalize.go:294-296). -/
def normalizeDLNAHash (hash : String) : String :=
  goToLower (goTrimSpace hash)

/-- `HasDLNATitleBucket` (normalize.go:298-311). -/
def HasDLNATitleBucket (s : SettingsState) (hashHex : String) : Bool :=
  if !s.tdbOpen then false
  else
    let h := normalizeDLNAHash hashHex
    if h = "" then false
    else hasDLNATitleBucket s.db h

/-- The path cleaning inside `StoreDLNATitles` (normalize.go:322-329):
build a map from trimmed paths to titles, dropping paths that trim to
empty.  The Go map build is embedded as a fold with map-style insertion. -/
def cleanTitles (titles : List (String × String)) : List (String × String) :=
  titles.foldl
    (fun acc e =>
      let path := goTrimSpace e.1
      if path = "" then acc else assocSet acc path e.2)
    []

/-- `StoreDLNATitles` (normalize.go:313-335): a no-op when the store is
closed or read-only, the hash normalizes to empty, the titles map is
empty, or every path trims to empty; otherwise delegate the cleaned map to
the chain-level store. -/
def StoreDLNATitles (s : SettingsState) (hashHex : String)
    (titles : List (String × String)) : SettingsState :=
  if !s.tdbOpen || s.readOnly then s
  else
    let h := normalizeDLNAHash hashHex
    if h = "" ∨ titles.isEmpty then s
    else
      let cleaned := cleanTitles titles
      if cleaned.isEmpty then s
      else { s with db := storeDLNATitles s.db h cleaned }

/-- `GetDLNATitle` (normalize.go:338-351): empty string on a closed
store, empty normalized hash or empty path; otherwise the chain point
read at xpath `DLNATitles/<hash>`. -/
def GetDLNATitle (s : SettingsState) (hashHex path : String) : String :=
  if !s.tdbOpen then ""
  else
    let h := normalizeDLNAHash hashHex
    if h = "" ∨ path = "" then ""
    else
      let buf := dbGet s.db ("DLNATitles/" ++ h) path
      if buf = "" then "" else buf

/-- `RemDLNATitles` (normalize.go:364-373): delete the bucket at every
layer; the read-only flag is not consulted. -/
def RemDLNATitles (s : SettingsState) (hashHex : String) : SettingsState :=
  if !s.tdbOpen then s
  else
    let h := normalizeDLNAHash hashHex
    if h = "" then s
    else { s with db := removeDLNATitleBucket s.db h }

/- ## Coordinator (`dlnatitles` package, normalize.go:40-166) -/

/-- `Lookup` (normalize.go:150-166): cached title, or the original path
on a cache miss. -/
def Lookup (s : SettingsState) (hashHex path : String) : String :=
  let cached := GetDLNATitle s hashHex path
  if cached ≠ "" then cached else path

/-- The de-duplication loop of `EnsureTorrent` (normalize.go:51-62):
drop empty strings and duplicates, keeping first occurrences in order. -/
def uniquePathsOf : List String → List String → List String
  | [], _ => []
  | p :: rest, seen =>
    if p = "" ∨ p ∈ seen then uniquePathsOf rest seen
    else p :: uniquePathsOf rest (p :: seen)

/-- The per-path title fallback of `EnsureTorrent` (normalize.go:98-105):
use the generated title (the Go error path carries the path itself as the
returned text), trim it, and fall back to the raw path when the trim is
empty. -/
def fallbackTitle (path : String) (r : Except GenError String) : String :=
  let title :=
    match r with
    | .ok t => t
    | .error _ => path
  let title := goTrimSpace title
  if title = "" then path else title

/-- `EnsureTorrent` (normalize.go:40-134): normalize the hash,
de-duplicate the paths, fast-path out when the bucket already exists,
generate a title per path (worker fan-out joined before continuing, so the
batch is embedded as a map over the de-duplicated paths), re-check bucket
existence, and store.  Returns the new settings state together with the
total number of provider calls issued. -/
def EnsureTorrent (apiKey model : String)
    (provider : String → Nat → HttpResult) (s : SettingsState)
    (hashHex : String) (paths : List String) : SettingsState × Nat :=
  let hashHex := goToLower (goTrimSpace hashHex)
  if hashHex = "" ∨ paths.isEmpty then (s, 0)
  else
    let uniquePaths := uniquePathsOf paths []
    if uniquePaths.isEmpty then (s, 0)
    else if HasDLNATitleBucket s hashHex then (s, 0)
    else
      let results := uniquePaths.map (fun p =>
        let r := generateNormalizedTitle apiKey model (provider p)
        (p, fallbackTitle p r.1, r.2))
      let titles := results.map (fun e => (e.1, e.2.1))
      let calls := (results.map (fun e => e.2.2)).sum
      if titles.isEmpty then (s, calls)
      else if HasDLNATitleBucket s hashHex then (s, calls)
      else (StoreDLNATitles s hashHex titles, calls)

/- ## Stream-link projector (`server/torr/dlnacache.go`)

Filesystem writes are embedded by their observable content: the loop of
`createStreamLinkFiles` (dlnacache.go:108-140) is embedded as the list of
(file name, link content) pairs it writes, in write order.  `url.PathEscape`
is a Go standard-library collaborator and is passed in abstractly. -/

structure FileStat where
  path : String
  id : Int
deriving DecidableEq, Repr

/-- The reserved characters of `sanitizeFileName` (dlnacache.go:239). -/
def reservedChars : List Char :=
  ['<', '>', ':', '"', '/', '\\', '|', '?', '*']

/-- The builder loop of `sanitizeFileName` (dlnacache.go:233-247): skip
control characters (below 32 and DEL), map reserved characters to an
underscore, and stop as soon as the builder holds at least 200 bytes
(checked after each write; `len` is the byte length written so far). -/
def sanitizeLoop : List Char → Nat → List Char
  | [], _ => []
  | c :: rest, len =>
    if c.toNat < 32 ∨ c.toNat = 127 then sanitizeLoop rest len
    else
      let c := if c ∈ reservedChars then '_' else c
      let len := len + c.utf8Size
      if 200 ≤ len then [c] else c :: sanitizeLoop rest len

/-- The 200-byte budget of `sanitizeFileName` separated from the
character handling: append characters, stopping after the write that
brings the byte count (starting from `len` bytes already written) to 200
or more.  `sanitizeLoop cs len` is proved equal to `capBudget` applied to
the control-filtered, reserved-mapped characters of `cs`. -/
def capBudget : List Char → Nat → List Char
  | [], _ => []
  | c :: rest, len =>
    let len := len + c.utf8Size
    if 200 ≤ len then [c] else c :: capBudget rest len

/-- Go `strings.Trim(s, " ._")` (dlnacache.go:249): drop characters of
the cut set from both ends. -/
def trimCutset (cs : List Char) : List Char :=
  ((cs.dropWhile (fun c => c ∈ [' ', '.', '_'])).reverse.dropWhile
    (fun c => c ∈ [' ', '.', '_'])).reverse

/-- `sanitizeFileName` (dlnacache.go:227-251). -/
def sanitizeFileName (name : String) : String :=
  let name := goTrimSpace name
  if name = "" then ""
  else String.mk (trimCutset (sanitizeLoop name.data 0))

/-- Go `filepath.Base` on slash-separated paths: empty input gives ".",
trailing slashes are stripped, the last component is returned, and an
all-slash path gives "/". -/
def filepathBase (p : String) : String :=
  if p = "" then "."
  else
    let cs := (p.data.reverse.dropWhile (fun c => c = '/')).reverse
    let name := (cs.reverse.takeWhile (fun c => c ≠ '/')).reverse
    if name = [] then "/" else String.mk name

/-- The directory-name choice of `createStreamLinkFiles`
(dlnacache.go:80-86): sanitized torrent title, else (when torrent info is
available) sanitized info name, else the torrent hash. -/
def chooseDirName (title infoName : String) (hasInfo : Bool)
    (hashHex : String) : String :=
  let dirName := sanitizeFileName title
  let dirName :=
    if dirName = "" ∧ hasInfo then sanitizeFileName infoName else dirName
  if dirName = "" then hashHex else dirName

/-- `buildStreamLink` (dlnacache.go:169-176); `esc` abstracts
`url.PathEscape`. -/
def buildStreamLink (esc : String → String) (baseURL hashHex p : String)
    (id : Int) : String :=
  if baseURL = "" ∨ hashHex = "" ∨ p = "" then ""
  else
    baseURL ++ "/stream/" ++ esc (filepathBase p) ++ "?link=" ++ hashHex ++
      "&index=" ++ toString id ++ "&play"

/-- The link-file base name computed per media file inside the loop of
`createStreamLinkFiles` (dlnacache.go:118-125): the trimmed cache lookup
(which itself falls back to the path), then the file base name when that
trims to empty, sanitized, with a final `file-<id>` fallback. -/
def linkBaseName (s : SettingsState) (hashHex : String) (f : FileStat) :
    String :=
  let title := goTrimSpace (Lookup s hashHex f.path)
  let title := if title = "" then filepathBase f.path else title
  let baseName := sanitizeFileName title
  if baseName = "" then "file-" ++ toString f.id else baseName

/-- The write loop of `createStreamLinkFiles` (dlnacache.go:108-140):
skip empty and non-media paths, compute the base name, disambiguate equal
base names with a ` (n)` suffix driven by the `nameCounts` map, and write
`<name>.strmlnk` with the stream link as content. -/
def streamLinkEntries (s : SettingsState) (hashHex baseURL : String)
    (esc : String → String) (allowed : List String) :
    List FileStat → List (String × Nat) → List (String × String)
  | [], _ => []
  | f :: rest, nameCounts =>
    if f.path = "" ∨ f.path ∉ allowed then
      streamLinkEntries s hashHex baseURL esc allowed rest nameCounts
    else
      let baseName := linkBaseName s hashHex f
      let count := (nameCounts.lookup baseName).getD 0
      let nameCounts := assocSet nameCounts baseName (count + 1)
      let name :=
        if 0 < count then
          baseName ++ " (" ++ toString (count + 1) ++ ")"
        else baseName
      (name ++ ".strmlnk",
        buildStreamLink esc baseURL hashHex f.path f.id) ::
        streamLinkEntries s hashHex baseURL esc allowed rest nameCounts

/-- The media files kept by the loop (in listing order): non-empty paths
that are in the allowed media set. -/
def keptFiles (allowed : List String) (files : List FileStat) :
    List FileStat :=
  files.filter (fun f => ¬(f.path = "" ∨ f.path ∉ allowed))

/- ## Per-torrent lock registry (`lockTorrent`, normalize.go:136-147)

`lockTorrent` does `ensureLocks.LoadOrStore(hash, &sync.Mutex{})` followed
by `mu.Lock()`; the returned unlock closure does `mu.Unlock()` followed by
`ensureLocks.Delete(hash)` (unconditionally, even while other callers still
reference the same mutex).  This is embedded as a transition system over
the interleavings of several callers: mutex instances are numbered, the
registry is the `ensureLocks` map, `locked` is the set of held instances,
and each caller is a process walking through the four atomic steps
load-or-store / lock / unlock / delete. -/

/-- Position of one caller inside `lockTorrent` / its unlock closure. -/
inductive LockPhase where
  | start : LockPhase
  | waiting (mu : Nat) : LockPhase
  | critical (mu : Nat) : LockPhase
  | unlockedEntry (mu : Nat) : LockPhase
  | done : LockPhase
deriving DecidableEq, Repr

structure LockProc where
  hash : String
  phase : LockPhase
deriving DecidableEq, Repr

structure LockSys where
  procs : List LockProc
  registry : List (String × Nat)
  locked : List Nat
  fresh : Nat
deriving DecidableEq, Repr

/-- One atomic step of one caller, by process index. -/
inductive LockAction where
  | loadOrStore (pid : Nat) : LockAction
  | lock (pid : Nat) : LockAction
  | unlockMutex (pid : Nat) : LockAction
  | deleteEntry (pid : Nat) : LockAction
deriving DecidableEq, Repr

/-- Interleaving semantics of the lock registry: `none` when the action is
not enabled.  `loadOrStore` is `sync.Map.LoadOrStore` (reuse the registered
mutex or register a fresh one); `lock` acquires a free mutex; `unlockMutex`
releases it; `deleteEntry` is the unconditional `ensureLocks.Delete`. -/
def lockStep (s : LockSys) : LockAction → Option LockSys
  | .loadOrStore pid =>
    match s.procs[pid]? with
    | some p =>
      match p.phase with
      | .start =>
        match s.registry.lookup p.hash with
        | some mu =>
          some { s with procs := s.procs.set pid ⟨p.hash, .waiting mu⟩ }
        | none =>
          some { s with
            procs := s.procs.set pid ⟨p.hash, .waiting s.fresh⟩,
            registry := (p.hash, s.fresh) :: s.registry,
            fresh := s.fresh + 1 }
      | _ => none
    | none => none
  | .lock pid =>
    match s.procs[pid]? with
    | some p =>
      match p.phase with
      | .waiting mu =>
        if mu ∈ s.locked then none
        else
          some { s with
            procs := s.procs.set pid ⟨p.hash, .critical mu⟩,
            locked := mu :: s.locked }
      | _ => none
    | none => none
  | .unlockMutex pid =>
    match s.procs[pid]? with
    | some p =>
      match p.phase with
      | .critical mu =>
        some { s with
          procs := s.procs.set pid ⟨p.hash, .unlockedEntry mu⟩,
          locked := s.locked.erase mu }
      | _ => none
    | none => none
  | .deleteEntry pid =>
    match s.procs[pid]? with
    | some p =>
      match p.phase with
      | .unlockedEntry _ =>
        some { s with
          procs := s.procs.set pid ⟨p.hash, .done⟩,
          registry := s.registry.filter (fun e => e.1 ≠ p.hash) }
      | _ => none
    | none => none

/-- Run a sequence of steps; `none` as soon as one is not enabled. -/
def lockRun (s : LockSys) : List LockAction → Option LockSys
  | [] => some s
  | a :: rest =>
    match lockStep s a with
    | some next => lockRun next rest
    | none => none

/-- Initial system: every caller at the entry of `lockTorrent` targeting
its hash; empty registry, no mutex held. -/
def lockInit (hashes : List String) : LockSys :=
  ⟨hashes.map (fun h => ⟨h, .start⟩), [], [], 0⟩

/-- The torrent hashes of the callers currently inside the critical
section (between `mu.Lock()` and `mu.Unlock()`). -/
def criticalHashes (s : LockSys) : List String :=
  s.procs.filterMap (fun p =>
    match p.phase with
    | .critical _ => some p.hash
    | _ => none)

/-- The mutex instances currently held by callers inside the critical
section. -/
def criticalMus (s : LockSys) : List Nat :=
  s.procs.filterMap (fun p =>
    match p.phase with
    | .critical mu => some mu
    | _ => none)

/- ## Association-list and string helper lemmas -/

theorem lookup_filter_fst_ne {α β : Type} [DecidableEq α]
    (l : List (α × β)) (k : α) :
    (l.filter (fun e => e.1 ≠ k)).lookup k = none := by
  rw [List.lookup_eq_none_iff]
  intro e he
  have h := (List.mem_filter.mp he).2
  simp only [decide_eq_true_eq] at h
  simpa [bne_iff_ne] using Ne.symm h

theorem lookup_filter_pair_ne {α : Type} (l : List ((String × String) × α))
    (x k : String) :
    (l.filter (fun e => e.1.1 ≠ x)).lookup (x, k) = none := by
  rw [List.lookup_eq_none_iff]
  intro e he
  have h := (List.mem_filter.mp he).2
  simp only [decide_eq_true_eq] at h
  simp only [bne_iff_ne]
  intro hc
  exact h (by rw [← hc])

theorem any_filter_pair_ne {α : Type} (l : List ((String × String) × α))
    (x : String) :
    (l.filter (fun e => e.1.1 ≠ x)).any (fun e => e.1.1 = x) = false := by
  rw [List.any_eq_false]
  intro e he
  have h := (List.mem_filter.mp he).2
  simp only [decide_eq_true_eq] at h ⊢
  exact h

theorem lookup_filter_of_ne {α : Type} (l : List (String × α))
    (k k' : String) (h : k' ≠ k) :
    (l.filter (fun e => e.1 ≠ k)).lookup k' = l.lookup k' := by
  induction l with
  | nil => rfl
  | cons e rest ih =>
    rcases e with ⟨a, b⟩
    rw [List.filter_cons]
    simp only [ne_eq, decide_not] at ih ⊢
    by_cases hak : a = k
    · subst hak
      simp [List.lookup_cons, beq_false_of_ne h, ih]
    · by_cases hk : k' = a
      · subst hk
        simp [hak, List.lookup_cons]
      · simp [hak, List.lookup_cons, beq_false_of_ne hk, ih]

theorem lookup_append_single {α : Type} [DecidableEq α] {β : Type}
    (l : List (α × β)) (k : α) (v : β) (h : l.lookup k = none) :
    (l ++ [(k, v)]).lookup k = some v := by
  rw [List.lookup_append, h]
  simp [List.lookup]

theorem assocSet_lookup_self {α : Type} (l : List (String × α))
    (k : String) (v : α) : (assocSet l k v).lookup k = some v :=
  lookup_append_single _ k v (lookup_filter_fst_ne l k)

theorem assocSet_lookup_ne {α : Type} (l : List (String × α))
    (k k' : String) (v : α) (h : k' ≠ k) :
    (assocSet l k v).lookup k' = l.lookup k' := by
  rw [assocSet, List.lookup_append, lookup_filter_of_ne l k k' h]
  have h2 : List.lookup k' [(k, v)] = none := by
    simp [List.lookup, beq_false_of_ne h]
  rw [h2]
  cases List.lookup k' l <;> rfl

theorem string_append_left_cancel {a b c : String}
    (h : a ++ b = a ++ c) : b = c := by
  have hd := congrArg String.data h
  simp only [String.data_append] at hd
  exact String.ext (List.append_cancel_left hd)

theorem find?_buckets_fresh (bs : List (String × List (String × String)))
    (h : String) (ts : List (String × String))
    (hnone : bs.lookup h = none) :
    (bs ++ [(h, ts)]).find?
      (fun b => decide ("DLNATitles/" ++ h = "DLNATitles/" ++ b.1)) =
      some (h, ts) := by
  rw [List.find?_append]
  have h1 : bs.find?
      (fun b => decide ("DLNATitles/" ++ h = "DLNATitles/" ++ b.1)) =
      none := by
    rw [List.find?_eq_none]
    intro b hb
    simp only [decide_eq_true_eq]
    intro heq
    have hhb : h = b.1 := string_append_left_cancel heq
    rw [List.lookup_eq_none_iff] at hnone
    have hb2 := hnone b hb
    rw [bne_iff_ne] at hb2
    exact hb2 hhb
  rw [h1]
  simp [List.find?]

/- ## Chain-level helper definitions and lemmas -/

/-- The durable buckets at the bottom of a chain (empty when the chain
does not reach a durable layer). -/
def bucketsOf : TorrServerDB → List (String × List (String × String))
  | .readCache _ _ (some d) => bucketsOf d
  | .readCache _ _ none => []
  | .router (some d) => bucketsOf d
  | .router none => []
  | .tdb bs => bs

theorem StoreDLNATitles_readonly (s : SettingsState) (h : String)
    (titles : List (String × String)) (hro : s.readOnly = true) :
    StoreDLNATitles s h titles = s := by
  unfold StoreDLNATitles
  rw [if_pos (by simp [hro])]

theorem getDLNATitle_store_fresh (lc : List (String × List String))
    (dc : List ((String × String) × String))
    (bs : List (String × List (String × String)))
    (h : String) (ts : List (String × String)) (ro : Bool)
    (hnorm : normalizeDLNAHash h = h) (hne : h ≠ "") (hts : ts ≠ [])
    (hfresh : bs.lookup h = none) (p t : String)
    (hpt : ts.lookup p = some t) (hp : p ≠ "") :
    GetDLNATitle ⟨true, ro, storeDLNATitles (chain3 lc dc bs) h ts⟩ h p =
      t := by
  have hcreate : createDLNATitleBucket bs h ts = bs ++ [(h, ts)] := by
    unfold createDLNATitleBucket
    rw [if_neg (by simpa [List.isEmpty_iff] using hts), hfresh]
    rfl
  simp only [GetDLNATitle, chain3, storeDLNATitles, hcreate, hnorm]
  rw [if_neg (by simp), if_neg (by simp [hne, hp])]
  simp only [dbGet, lookup_filter_pair_ne]
  rw [find?_buckets_fresh bs h ts hfresh]
  simp only [hpt, Option.getD_some]
  by_cases ht : t = "" <;> simp [ht]

/- ## C2 — cache layering coherence -/

/-- C2 (amended): for a normalized non-empty torrent id on the standard
three-layer chain, after `removeDLNATitleBucket` returns,
`hasDLNATitleBucket` is false at every layer (including entries previously
cached in the memory layer); after `storeDLNATitles` of a non-empty titles
map, `hasDLNATitleBucket` is true at every layer, and — provided the
durable bucket did not already exist — `GetDLNATitle` returns the stored
title for each stored path. -/
theorem C2_layer_coherence (lc : List (String × List String))
    (dc : List ((String × String) × String))
    (bs : List (String × List (String × String)))
    (h : String) (titles : List (String × String)) (ro : Bool)
    (hnorm : normalizeDLNAHash h = h) (hne : h ≠ "") :
    (∀ l ∈ layers (removeDLNATitleBucket (chain3 lc dc bs) h),
      hasDLNATitleBucket l h = false) ∧
    (titles ≠ [] →
      ∀ l ∈ layers (storeDLNATitles (chain3 lc dc bs) h titles),
        hasDLNATitleBucket l h = true) ∧
    (titles ≠ [] → bs.lookup h = none →
      ∀ p t, titles.lookup p = some t → p ≠ "" →
        GetDLNATitle ⟨true, ro, storeDLNATitles (chain3 lc dc bs) h titles⟩
          h p = t) := by
  refine ⟨?_, ?_, ?_⟩
  · simp only [chain3, removeDLNATitleBucket, layers, List.mem_cons,
      List.mem_singleton, List.not_mem_nil]
    rintro l (rfl | rfl | rfl | hfalse)
    · simp only [hasDLNATitleBucket, deleteDLNATitleBucket]
      rw [lookup_filter_fst_ne, any_filter_pair_ne, lookup_filter_fst_ne]
      rfl
    · simp only [hasDLNATitleBucket, deleteDLNATitleBucket]
      rw [lookup_filter_fst_ne]
      rfl
    · simp only [hasDLNATitleBucket, deleteDLNATitleBucket]
      rw [lookup_filter_fst_ne]
      rfl
    · cases hfalse
  · intro hts
    have hbucket :
        ((createDLNATitleBucket bs h titles).lookup h).isSome = true := by
      unfold createDLNATitleBucket
      rw [if_neg (by simpa [List.isEmpty_iff] using hts)]
      by_cases hl : (bs.lookup h).isSome
      · simp [hl]
      · rw [if_neg hl]
        rw [lookup_append_single bs h titles
          (by cases hcase : bs.lookup h with
              | none => rfl
              | some es => rw [hcase] at hl; simp at hl)]
        rfl
    simp only [chain3, storeDLNATitles, layers, List.mem_cons,
      List.mem_singleton, List.not_mem_nil]
    rintro l (rfl | rfl | rfl | hfalse)
    · simp only [hasDLNATitleBucket, lookup_filter_fst_ne,
        any_filter_pair_ne]
      simpa using hbucket
    · simpa only [hasDLNATitleBucket] using hbucket
    · simpa only [hasDLNATitleBucket] using hbucket
    · cases hfalse
  · intro hts hfresh p t hpt hp
    exact getDLNATitle_store_fresh lc dc bs h titles ro hnorm hne hts hfresh
      p t hpt hp

/-- C2 counterexample to the claim as stated: storing a non-empty titles
map for a torrent whose durable bucket already exists is a first-writer-
wins no-op, so `GetDLNATitle` afterwards returns the pre-existing title,
not the newly stored one. -/
theorem C2_counterexample :
    GetDLNATitle
      ⟨true, false,
        storeDLNATitles (chain3 [] [] [("ab", [("p", "old")])])
          "ab" [("p", "new")]⟩ "ab" "p" = "old" ∧ "old" ≠ "new" := by
  constructor
  · decide
  · decide

/-- Witness for C2: a concrete three-layer chain with stale memory-layer
entries; after the store of a fresh bucket the lookup returns the stored
title. -/
theorem C2_layer_coherence_witness :
    GetDLNATitle
      ⟨true, false,
        storeDLNATitles
          (chain3 [("DLNATitles/ab", ["p"])] [(("DLNATitles/ab", "p"), "x")]
            []) "ab" [("p", "T")]⟩ "ab" "p" = "T" :=
  (C2_layer_coherence [("DLNATitles/ab", ["p"])]
    [(("DLNATitles/ab", "p"), "x")] [] "ab" [("p", "T")] false (by decide)
    (by decide)).2.2 (by decide) rfl "p" "T" rfl (by decide)

/- ## C4 — StoreBucket semantics -/

/-- C4 (amended): `StoreDLNATitles` with a titles map that is empty (or
whose paths all trim to empty) leaves the state unchanged; for a torrent
whose durable bucket already exists the durable bucket is left unchanged
(first writer wins); and — when the durable store is open and the
read-only flag is unset — for a fresh bucket all cleaned entries of the
titles map are written in the one durable transaction, and each stored
path reads back its stored title. -/
theorem C4_store_bucket_semantics (op ro : Bool)
    (lc : List (String × List String))
    (dc : List ((String × String) × String))
    (bs : List (String × List (String × String)))
    (h : String) (titles : List (String × String)) :
    (cleanTitles titles = [] →
      StoreDLNATitles ⟨op, ro, chain3 lc dc bs⟩ h titles =
        ⟨op, ro, chain3 lc dc bs⟩) ∧
    ((bs.lookup (normalizeDLNAHash h)).isSome →
      bucketsOf (StoreDLNATitles ⟨op, ro, chain3 lc dc bs⟩ h titles).db =
        bs) ∧
    (normalizeDLNAHash h = h → h ≠ "" → bs.lookup h = none →
      cleanTitles titles ≠ [] →
      bucketsOf (StoreDLNATitles ⟨true, false, chain3 lc dc bs⟩ h
          titles).db = bs ++ [(h, cleanTitles titles)] ∧
      ∀ p t, (cleanTitles titles).lookup p = some t → p ≠ "" →
        GetDLNATitle (StoreDLNATitles ⟨true, false, chain3 lc dc bs⟩ h
          titles) h p = t) := by
  refine ⟨?_, ?_, ?_⟩
  · intro hclean
    unfold StoreDLNATitles
    split
    · rfl
    · dsimp only
      split
      · rfl
      · rw [hclean]
        simp
  · intro hsome
    unfold StoreDLNATitles
    split
    · rfl
    · dsimp only
      split
      · rfl
      · split
        · rfl
        · show bucketsOf (storeDLNATitles (chain3 lc dc bs)
            (normalizeDLNAHash h) (cleanTitles titles)) = bs
          show createDLNATitleBucket bs (normalizeDLNAHash h)
            (cleanTitles titles) = bs
          unfold createDLNATitleBucket
          split
          all_goals simp [hsome]
  · intro hnorm hne hfresh hclean
    have hopen : ¬(!(true : Bool) || false) = true := by simp
    have hguard : ¬(normalizeDLNAHash h = "" ∨ titles.isEmpty = true) := by
      rintro (hc | hc)
      · exact hne (hnorm ▸ hc)
      · rw [List.isEmpty_iff] at hc
        exact hclean (by simp [cleanTitles, hc])
    have hstore : StoreDLNATitles ⟨true, false, chain3 lc dc bs⟩ h titles =
        ⟨true, false, storeDLNATitles (chain3 lc dc bs) h
          (cleanTitles titles)⟩ := by
      unfold StoreDLNATitles
      rw [if_neg hopen, if_neg hguard,
        if_neg (by simpa [List.isEmpty_iff] using hclean), hnorm]
    constructor
    · rw [hstore]
      show createDLNATitleBucket bs h (cleanTitles titles) =
        bs ++ [(h, cleanTitles titles)]
      unfold createDLNATitleBucket
      rw [if_neg (by simpa [List.isEmpty_iff] using hclean), hfresh]
      rfl
    · intro p t hpt hp
      rw [hstore]
      exact getDLNATitle_store_fresh lc dc bs h (cleanTitles titles) false
        hnorm hne hclean hfresh p t hpt hp

/-- C4 counterexample to the claim as stated: with the read-only flag set,
`StoreDLNATitles` for a fresh bucket writes nothing at all, so "when the
bucket does not exist, all entries of the titles map are written" fails. -/
theorem C4_counterexample :
    bucketsOf (StoreDLNATitles ⟨true, true, chain3 [] [] []⟩ "ab"
      [("p", "T")]).db = [] ∧
    GetDLNATitle (StoreDLNATitles ⟨true, true, chain3 [] [] []⟩ "ab"
      [("p", "T")]) "ab" "p" = "" := by
  constructor
  · decide
  · decide

/-- Witness for C4: storing `{" p " ↦ "T"}` into an open writable store
with a fresh bucket writes the cleaned entry `("p", "T")` and reads it
back; an already-existing bucket is left unchanged. -/
theorem C4_store_bucket_semantics_witness :
    GetDLNATitle (StoreDLNATitles ⟨true, false, chain3 [] [] []⟩ "ab"
      [(" p ", "T")]) "ab" "p" = "T" :=
  ((C4_store_bucket_semantics true false [] [] [] "ab"
    [(" p ", "T")]).2.2 (by decide) (by decide) rfl (by decide)).2
    "p" "T" (by decide) (by decide)

/- ## C10 — read-only mode suppresses stores but not deletes -/

/-- C10: with the read-only flag set, `StoreDLNATitles` leaves the state
unchanged (for every torrent id and titles map) and `EnsureTorrent` can
never make a bucket come into existence (it returns the state unchanged);
`RemDLNATitles` does not consult the flag (identical effect either way)
and still deletes the bucket. -/
theorem C10_readonly_frame (op ro : Bool)
    (lc : List (String × List String))
    (dc : List ((String × String) × String))
    (bs : List (String × List (String × String)))
    (h : String) (titles : List (String × String)) (paths : List String)
    (apiKey model : String) (provider : String → Nat → HttpResult) :
    (∀ s : SettingsState, s.readOnly = true →
      StoreDLNATitles s h titles = s) ∧
    ((RemDLNATitles ⟨op, true, chain3 lc dc bs⟩ h).db =
      (RemDLNATitles ⟨op, false, chain3 lc dc bs⟩ h).db) ∧
    (normalizeDLNAHash h ≠ "" →
      hasDLNATitleBucket (RemDLNATitles ⟨true, ro, chain3 lc dc bs⟩ h).db
        (normalizeDLNAHash h) = false) ∧
    (∀ s : SettingsState, s.readOnly = true →
      (EnsureTorrent apiKey model provider s h paths).1 = s) := by
  refine ⟨?_, ?_, ?_, ?_⟩
  · exact fun s hro => StoreDLNATitles_readonly s h titles hro
  · by_cases hop : op <;> by_cases hh : normalizeDLNAHash h = "" <;>
      simp [RemDLNATitles, hop, hh]
  · intro hh
    simp only [RemDLNATitles]
    rw [if_neg (by simp)]
    try dsimp only
    rw [if_neg hh]
    try dsimp only
    simp only [chain3, removeDLNATitleBucket, hasDLNATitleBucket,
      deleteDLNATitleBucket]
    rw [lookup_filter_fst_ne, any_filter_pair_ne, lookup_filter_fst_ne]
    rfl
  · intro s hro
    unfold EnsureTorrent
    dsimp only
    split
    · rfl
    · split
      · rfl
      · split
        · rfl
        · split
          · rfl
          · simp [StoreDLNATitles_readonly _ _ _ hro]

/-- Witness for C10: a concrete read-only state is left unchanged by
`EnsureTorrent` even with a fresh bucket, working provider, and valid
configuration. -/
theorem C10_readonly_frame_witness :
    (EnsureTorrent "k" "m" (fun _ _ => .resp 200 (.choices ["A"]))
      ⟨true, true, chain3 [] [] []⟩ "ab" ["f.mkv"]).1 =
      (⟨true, true, chain3 [] [] []⟩ : SettingsState) :=
  (C10_readonly_frame true true [] [] [] "ab" [] ["f.mkv"] "k" "m"
    (fun _ _ => .resp 200 (.choices ["A"]))).2.2.2
    ⟨true, true, chain3 [] [] []⟩ rfl

/- ## Coordinator helper lemmas (for the EnsureTorrent claims) -/

theorem mem_of_lookup_eq_some {α : Type} [DecidableEq α] {β : Type}
    {l : List (α × β)} {k : α} {v : β} (h : l.lookup k = some v) :
    (k, v) ∈ l := by
  induction l with
  | nil => cases h
  | cons e rest ih =>
    rcases e with ⟨a, b⟩
    by_cases hk : k = a
    · subst hk
      simp only [List.lookup_cons, beq_self_eq_true] at h
      simp only [Option.some.injEq] at h
      subst h
      exact List.mem_cons_self _ _
    · simp only [List.lookup_cons, beq_false_of_ne hk] at h
      exact List.mem_cons_of_mem _ (ih h)

theorem mem_uniquePathsOf (paths : List String) :
    ∀ (seen : List String) (p : String), p ∈ paths → p ≠ "" → p ∉ seen →
      p ∈ uniquePathsOf paths seen := by
  induction paths with
  | nil => intro seen p hp; cases hp
  | cons q rest ih =>
    intro seen p hp hne hs
    rw [uniquePathsOf]
    by_cases hq : q = "" ∨ q ∈ seen
    · rw [if_pos hq]
      rcases List.mem_cons.mp hp with rfl | hp'
      · rcases hq with hq | hq
        · exact absurd hq hne
        · exact absurd hq hs
      · exact ih seen p hp' hne hs
    · rw [if_neg hq]
      rcases List.mem_cons.mp hp with rfl | hp'
      · exact List.mem_cons_self _ _
      · by_cases hpq : p = q
        · subst hpq
          exact List.mem_cons_self _ _
        · refine List.mem_cons_of_mem _ (ih (q :: seen) p hp' hne ?_)
          simp [hpq, hs]

theorem uniquePathsOf_spec (paths : List String) :
    ∀ (seen : List String) (p : String), p ∈ uniquePathsOf paths seen →
      p ≠ "" ∧ p ∈ paths := by
  induction paths with
  | nil => intro seen p hp; cases hp
  | cons q rest ih =>
    intro seen p hp
    rw [uniquePathsOf] at hp
    by_cases hq : q = "" ∨ q ∈ seen
    · rw [if_pos hq] at hp
      obtain ⟨h1, h2⟩ := ih seen p hp
      exact ⟨h1, List.mem_cons_of_mem _ h2⟩
    · rw [if_neg hq] at hp
      rcases List.mem_cons.mp hp with rfl | hp'
      · refine ⟨?_, List.mem_cons_self _ _⟩
        intro hc
        exact hq (Or.inl hc)
      · obtain ⟨h1, h2⟩ := ih (q :: seen) p hp'
        exact ⟨h1, List.mem_cons_of_mem _ h2⟩

theorem lookup_map_self {β : Type} (f : String → β) (l : List String)
    (p : String) (hp : p ∈ l) :
    (l.map (fun q => (q, f q))).lookup p = some (f p) := by
  induction l with
  | nil => cases hp
  | cons a rest ih =>
    by_cases hpa : p = a
    · subst hpa
      simp [List.lookup_cons]
    · rcases List.mem_cons.mp hp with rfl | hp'
      · exact absurd rfl hpa
      · simp only [List.map_cons, List.lookup_cons, beq_false_of_ne hpa]
        exact ih hp'

theorem fallbackTitle_ne_empty (p : String)
    (r : Except GenError String) (hp : p ≠ "") : fallbackTitle p r ≠ "" := by
  unfold fallbackTitle
  dsimp only
  split
  · exact hp
  · next hc => exact hc

theorem cleanFold_preserves (ts : List (String × String)) :
    ∀ (acc : List (String × String)) (k : String),
      ((acc.lookup k).isSome = true) →
      ((ts.foldl (fun acc e =>
          let path := goTrimSpace e.1
          if path = "" then acc else assocSet acc path e.2) acc).lookup
        k).isSome = true := by
  induction ts with
  | nil => intro acc k hk; exact hk
  | cons e rest ih =>
    intro acc k hk
    rw [List.foldl_cons]
    apply ih
    dsimp only
    split
    · exact hk
    · by_cases hke : k = goTrimSpace e.1
      · subst hke
        rw [assocSet_lookup_self]
        rfl
      · rw [assocSet_lookup_ne _ _ _ _ hke]
        exact hk

theorem cleanFold_hit (ts : List (String × String)) :
    ∀ (acc : List (String × String)) (q v : String), (q, v) ∈ ts →
      goTrimSpace q ≠ "" →
      ((ts.foldl (fun acc e =>
          let path := goTrimSpace e.1
          if path = "" then acc else assocSet acc path e.2) acc).lookup
        (goTrimSpace q)).isSome = true := by
  induction ts with
  | nil => intro acc q v hqv; cases hqv
  | cons e rest ih =>
    intro acc q v hqv hq
    rw [List.foldl_cons]
    rcases List.mem_cons.mp hqv with heq | hmem
    · apply cleanFold_preserves
      rw [← heq]
      dsimp only
      rw [if_neg hq, assocSet_lookup_self]
      rfl
    · exact ih _ q v hmem hq

theorem cleanTitles_lookup_of_mem (ts : List (String × String))
    (q v : String) (hqv : (q, v) ∈ ts) (hq : goTrimSpace q ≠ "") :
    ((cleanTitles ts).lookup (goTrimSpace q)).isSome = true :=
  cleanFold_hit ts [] q v hqv hq

theorem cleanFold_value_mem (ts : List (String × String)) :
    ∀ (acc : List (String × String)) (k v : String),
      (ts.foldl (fun acc e =>
          let path := goTrimSpace e.1
          if path = "" then acc else assocSet acc path e.2) acc).lookup k =
        some v →
      (k, v) ∈ acc ∨ ∃ q, (q, v) ∈ ts := by
  induction ts with
  | nil =>
    intro acc k v h
    exact Or.inl (mem_of_lookup_eq_some h)
  | cons e rest ih =>
    intro acc k v h
    rw [List.foldl_cons] at h
    rcases ih _ k v h with hmem | ⟨q, hq⟩
    · dsimp only at hmem
      by_cases he : goTrimSpace e.1 = ""
      · rw [if_pos he] at hmem
        exact Or.inl hmem
      · rw [if_neg he] at hmem
        rcases List.mem_append.mp hmem with hf | hs
        · exact Or.inl (List.mem_filter.mp hf).1
        · simp only [List.mem_singleton, Prod.mk.injEq] at hs
          refine Or.inr ⟨e.1, ?_⟩
        
          rw [hs.2]
          exact List.mem_cons_self _ _
    · exact Or.inr ⟨q, List.mem_cons_of_mem _ hq⟩

theorem cleanTitles_value_mem (ts : List (String × String)) (k v : String)
    (h : (cleanTitles ts).lookup k = some v) : ∃ q, (q, v) ∈ ts := by
  rcases cleanFold_value_mem ts [] k v h with hmem | hex
  · cases hmem
  · exact hex

/-- The titles map built by one `EnsureTorrent` generation round, keyed by
the de-duplicated paths in order. -/
def ensureTitles (apiKey model : String)
    (provider : String → Nat → HttpResult) (paths : List String) :
    List (String × String) :=
  (uniquePathsOf paths []).map (fun p =>
    (p, fallbackTitle p (generateNormalizedTitle apiKey model
      (provider p)).1))

/-- The total number of provider calls issued by one `EnsureTorrent`
generation round. -/
def ensureCalls (apiKey model : String)
    (provider : String → Nat → HttpResult) (paths : List String) : Nat :=
  ((uniquePathsOf paths []).map (fun p =>
    (generateNormalizedTitle apiKey model (provider p)).2)).sum

theorem ensureTorrent_shortcircuit (apiKey model : String)
    (provider : String → Nat → HttpResult) (s : SettingsState)
    (h : String) (paths : List String)
    (hc : goToLower (goTrimSpace h) = "" ∨
      (uniquePathsOf paths []).isEmpty = true) :
    EnsureTorrent apiKey model provider s h paths = (s, 0) := by
  unfold EnsureTorrent
  dsimp only
  rcases hc with hc | hc
  · rw [if_pos (Or.inl hc)]
  · by_cases h1 : goToLower (goTrimSpace h) = "" ∨ paths.isEmpty = true
    · rw [if_pos h1]
    · rw [if_neg h1, if_pos hc]

theorem ensureTorrent_fastpath (apiKey model : String)
    (provider : String → Nat → HttpResult) (s : SettingsState)
    (h : String) (paths : List String)
    (hHas : HasDLNATitleBucket s (goToLower (goTrimSpace h)) = true) :
    EnsureTorrent apiKey model provider s h paths = (s, 0) := by
  unfold EnsureTorrent
  dsimp only
  by_cases h1 : goToLower (goTrimSpace h) = "" ∨ paths.isEmpty = true
  · rw [if_pos h1]
  · rw [if_neg h1]
    by_cases h2 : (uniquePathsOf paths []).isEmpty = true
    · rw [if_pos h2]
    · rw [if_neg h2, if_pos hHas]

theorem ensureTorrent_run (apiKey model : String)
    (provider : String → Nat → HttpResult) (s : SettingsState)
    (h : String) (paths : List String)
    (h1 : ¬(goToLower (goTrimSpace h) = "" ∨ paths.isEmpty = true))
    (h2 : ¬(uniquePathsOf paths []).isEmpty = true)
    (hHas : HasDLNATitleBucket s (goToLower (goTrimSpace h)) = false) :
    EnsureTorrent apiKey model provider s h paths =
      (StoreDLNATitles s (goToLower (goTrimSpace h))
        (ensureTitles apiKey model provider paths),
       ensureCalls apiKey model provider paths) := by
  unfold EnsureTorrent
  dsimp only
  rw [if_neg h1, if_neg h2]
  rw [if_neg (by simp [hHas]), if_neg (by
    simp only [List.isEmpty_iff, List.map_eq_nil_iff]
    intro hmap
    exact h2 (by simp [List.isEmpty_iff, hmap]))]
  rw [if_neg (by simp [hHas])]
  simp only [List.map_map]
  rfl

theorem create_lookup_isSome (bs : List (String × List (String × String)))
    (h : String) (ts : List (String × String)) (hts : ts ≠ []) :
    ((createDLNATitleBucket bs h ts).lookup h).isSome = true := by
  unfold createDLNATitleBucket
  rw [if_neg (by simpa [List.isEmpty_iff] using hts)]
  by_cases hl : (bs.lookup h).isSome
  · simp [hl]
  · rw [if_neg hl]
    rw [lookup_append_single bs h ts
      (by cases hcase : bs.lookup h with
          | none => rfl
          | some es => rw [hcase] at hl; simp at hl)]
    rfl

theorem has_store_chain3 (lc : List (String × List String))
    (dc : List ((String × String) × String))
    (bs : List (String × List (String × String)))
    (h : String) (ts : List (String × String)) (hts : ts ≠ []) :
    hasDLNATitleBucket (storeDLNATitles (chain3 lc dc bs) h ts) h =
      true := by
  simp only [chain3, storeDLNATitles, hasDLNATitleBucket]
  rw [lookup_filter_fst_ne, any_filter_pair_ne]
  simpa using create_lookup_isSome bs h ts hts

theorem has_after_store (lc : List (String × List String))
    (dc : List ((String × String) × String))
    (bs : List (String × List (String × String)))
    (h : String) (titles : List (String × String))
    (hnorm : normalizeDLNAHash h = h) (hne : h ≠ "")
    (htitles : titles ≠ []) (hclean : cleanTitles titles ≠ []) :
    HasDLNATitleBucket
      (StoreDLNATitles ⟨true, false, chain3 lc dc bs⟩ h titles) h =
      true := by
  have hstore : StoreDLNATitles ⟨true, false, chain3 lc dc bs⟩ h titles =
      ⟨true, false, storeDLNATitles (chain3 lc dc bs) h
        (cleanTitles titles)⟩ := by
    unfold StoreDLNATitles
    rw [if_neg (by simp), if_neg (by
      rintro (hc | hc)
      · exact hne (hnorm ▸ hc)
      · rw [List.isEmpty_iff] at hc
        exact htitles hc),
      if_neg (by simpa [List.isEmpty_iff] using hclean), hnorm]
  rw [hstore]
  unfold HasDLNATitleBucket
  rw [if_neg (by simp)]
  dsimp only
  rw [hnorm, if_neg hne]
  exact has_store_chain3 lc dc bs h (cleanTitles titles) hclean

theorem has_settings_chain3 (ro : Bool)
    (lc : List (String × List String))
    (dc : List ((String × String) × String))
    (bs : List (String × List (String × String))) (h : String)
    (hnorm : normalizeDLNAHash h = h) (hne : h ≠ "") :
    HasDLNATitleBucket ⟨true, ro, chain3 lc dc bs⟩ h =
      hasDLNATitleBucket (chain3 lc dc bs) h := by
  unfold HasDLNATitleBucket
  rw [if_neg (by simp)]
  dsimp only
  rw [hnorm, if_neg hne]

theorem chain3_has_false (lc : List (String × List String))
    (dc : List ((String × String) × String))
    (bs : List (String × List (String × String))) (h : String)
    (hfalse : hasDLNATitleBucket (chain3 lc dc bs) h = false) :
    bs.lookup h = none := by
  simp only [chain3, hasDLNATitleBucket] at hfalse
  split at hfalse
  · cases hfalse
  · split at hfalse
    · cases hfalse
    · cases hcase : bs.lookup h with
      | none => rfl
      | some es =>
        rw [hcase] at hfalse
        cases hfalse

/- ## C3 — idempotent bucket creation -/

/-- C3 (amended): when a bucket already exists, `EnsureTorrent` returns
without provider calls and without storing; `EnsureTorrent` with an empty
normalized hash or a path list that is empty after dropping empty strings
and duplicates is a no-op; and — on the standard three-layer chain with
the durable store open, the read-only flag unset, and at least one path
non-empty after trimming — the second of two sequential identical calls
performs zero provider calls. -/
theorem C3_idempotent_ensure (apiKey model : String)
    (provider : String → Nat → HttpResult)
    (lc : List (String × List String))
    (dc : List ((String × String) × String))
    (bs : List (String × List (String × String)))
    (h : String) (paths : List String) :
    (∀ s : SettingsState,
      HasDLNATitleBucket s (goToLower (goTrimSpace h)) = true →
      EnsureTorrent apiKey model provider s h paths = (s, 0)) ∧
    (∀ s : SettingsState,
      goToLower (goTrimSpace h) = "" ∨
        (uniquePathsOf paths []).isEmpty = true →
      EnsureTorrent apiKey model provider s h paths = (s, 0)) ∧
    (normalizeDLNAHash h = h → (∃ p ∈ paths, goTrimSpace p ≠ "") →
      (EnsureTorrent apiKey model provider
        (EnsureTorrent apiKey model provider ⟨true, false, chain3 lc dc bs⟩
          h paths).1 h paths).2 = 0) := by
  refine ⟨?_, ?_, ?_⟩
  · exact fun s hHas =>
      ensureTorrent_fastpath apiKey model provider s h paths hHas
  · exact fun s hc =>
      ensureTorrent_shortcircuit apiKey model provider s h paths hc
  · intro hnorm hex
    obtain ⟨p, hp, hptrim⟩ := hex
    have hn : goToLower (goTrimSpace h) = h := hnorm
    have hpne : p ≠ "" := by
      intro hc
      exact hptrim (by rw [hc]; rfl)
    have hpu : p ∈ uniquePathsOf paths [] :=
      mem_uniquePathsOf paths [] p hp hpne (by simp)
    have hune : ¬(uniquePathsOf paths []).isEmpty = true := by
      rw [List.isEmpty_iff]
      exact List.ne_nil_of_mem hpu
    by_cases hh : h = ""
    · rw [ensureTorrent_shortcircuit apiKey model provider _ h paths
        (Or.inl (by rw [hn, hh]))]
    · have h1 : ¬(goToLower (goTrimSpace h) = "" ∨ paths.isEmpty = true) := by
        rintro (hc | hc)
        · exact hh (by rw [← hn]; exact hc)
        · rw [List.isEmpty_iff] at hc
          rw [hc] at hp
          cases hp
      by_cases hHas : HasDLNATitleBucket ⟨true, false, chain3 lc dc bs⟩
          (goToLower (goTrimSpace h)) = true
      · rw [ensureTorrent_fastpath apiKey model provider _ h paths hHas]
        rw [ensureTorrent_fastpath apiKey model provider _ h paths hHas]
      · have hHasF : HasDLNATitleBucket ⟨true, false, chain3 lc dc bs⟩
            (goToLower (goTrimSpace h)) = false := by
          simpa using hHas
        rw [ensureTorrent_run apiKey model provider _ h paths h1 hune hHasF]
        have hstitles : ensureTitles apiKey model provider paths ≠ [] := by
          intro hc
          rw [ensureTitles, List.map_eq_nil_iff] at hc
          rw [hc] at hpu
          cases hpu
        have hmemclean : ((cleanTitles (ensureTitles apiKey model provider
            paths)).lookup (goTrimSpace p)).isSome = true := by
          refine cleanTitles_lookup_of_mem _ p
            (fallbackTitle p (generateNormalizedTitle apiKey model
              (provider p)).1) ?_ hptrim
          exact List.mem_map_of_mem _ hpu
        have hclean : cleanTitles (ensureTitles apiKey model provider
            paths) ≠ [] := by
          intro hc
          rw [hc] at hmemclean
          cases hmemclean
        have hhas2 : HasDLNATitleBucket
            (StoreDLNATitles ⟨true, false, chain3 lc dc bs⟩
              (goToLower (goTrimSpace h))
              (ensureTitles apiKey model provider paths))
            (goToLower (goTrimSpace h)) = true := by
          rw [hn]
          exact has_after_store lc dc bs h _ hnorm hh hstitles hclean
        rw [ensureTorrent_fastpath apiKey model provider _ h paths hhas2]

/-- C3 counterexample to the claim as stated: with the read-only flag set
the store is suppressed, so two sequential identical `EnsureTorrent`
calls each perform a full two-call provider round (four calls total, not
"at most one round"). -/
theorem C3_counterexample :
    (EnsureTorrent "k" "m" (fun _ _ => .resp 200 (.choices ["A"]))
      ⟨true, true, chain3 [] [] []⟩ "ab" ["f.mkv"]).2 = 2 ∧
    (EnsureTorrent "k" "m" (fun _ _ => .resp 200 (.choices ["A"]))
      (EnsureTorrent "k" "m" (fun _ _ => .resp 200 (.choices ["A"]))
        ⟨true, true, chain3 [] [] []⟩ "ab" ["f.mkv"]).1
      "ab" ["f.mkv"]).2 = 2 := by
  constructor
  · decide
  · decide

/-- Witness for C3: on a writable open store the first call generates (two
provider calls) and the second sequential call performs zero provider
calls. -/
theorem C3_idempotent_ensure_witness :
    (EnsureTorrent "k" "m" (fun _ _ => .resp 200 (.choices ["A"]))
      (EnsureTorrent "k" "m" (fun _ _ => .resp 200 (.choices ["A"]))
        ⟨true, false, chain3 [] [] []⟩ "ab" ["f.mkv"]).1
      "ab" ["f.mkv"]).2 = 0 :=
  (C3_idempotent_ensure "k" "m" (fun _ _ => .resp 200 (.choices ["A"]))
    [] [] [] "ab" ["f.mkv"]).2.2 (by decide)
    ⟨"f.mkv", by decide, by decide⟩

/- ## C5 — per-path failure degradation -/

/-- C5 (amended): in an `EnsureTorrent` batch every de-duplicated path
gets a title (the whole batch is processed) and that title is non-empty;
a failed generation degrades that path's title to the trimmed original
path (the raw path when it trims to empty); and for an arbitrary provider
— including one failing on every call — the bucket is still stored (on an
open writable chain with a fresh bucket and at least one path non-empty
after trimming), with every stored title non-empty. -/
theorem C5_per_path_degradation (apiKey model : String)
    (provider : String → Nat → HttpResult)
    (lc : List (String × List String))
    (dc : List ((String × String) × String))
    (bs : List (String × List (String × String)))
    (h : String) (paths : List String)
    (hnorm : normalizeDLNAHash h = h) (hne : h ≠ "")
    (hHas : HasDLNATitleBucket ⟨true, false, chain3 lc dc bs⟩ h = false)
    (hex : ∃ p ∈ paths, goTrimSpace p ≠ "") :
    (∀ p ∈ uniquePathsOf paths [],
      (ensureTitles apiKey model provider paths).lookup p =
        some (fallbackTitle p (generateNormalizedTitle apiKey model
          (provider p)).1) ∧
      fallbackTitle p (generateNormalizedTitle apiKey model
        (provider p)).1 ≠ "") ∧
    (∀ p e, (generateNormalizedTitle apiKey model (provider p)).1 =
        .error e →
      fallbackTitle p (generateNormalizedTitle apiKey model
        (provider p)).1 =
        if goTrimSpace p = "" then p else goTrimSpace p) ∧
    (bucketsOf (EnsureTorrent apiKey model provider
        ⟨true, false, chain3 lc dc bs⟩ h paths).1.db =
      bs ++ [(h, cleanTitles (ensureTitles apiKey model provider
        paths))]) ∧
    (HasDLNATitleBucket (EnsureTorrent apiKey model provider
        ⟨true, false, chain3 lc dc bs⟩ h paths).1 h = true) ∧
    (∀ k v, (cleanTitles (ensureTitles apiKey model provider
        paths)).lookup k = some v → v ≠ "") := by
  obtain ⟨p, hp, hptrim⟩ := hex
  have hn : goToLower (goTrimSpace h) = h := hnorm
  have hpne : p ≠ "" := by
    intro hc
    exact hptrim (by rw [hc]; rfl)
  have hpu : p ∈ uniquePathsOf paths [] :=
    mem_uniquePathsOf paths [] p hp hpne (by simp)
  have hune : ¬(uniquePathsOf paths []).isEmpty = true := by
    rw [List.isEmpty_iff]
    exact List.ne_nil_of_mem hpu
  have h1 : ¬(goToLower (goTrimSpace h) = "" ∨ paths.isEmpty = true) := by
    rintro (hc | hc)
    · exact hne (by rw [← hn]; exact hc)
    · rw [List.isEmpty_iff] at hc
      rw [hc] at hp
      cases hp
  have hHasKey : HasDLNATitleBucket ⟨true, false, chain3 lc dc bs⟩
      (goToLower (goTrimSpace h)) = false := by
    rw [hn]
    exact hHas
  have hrun := ensureTorrent_run apiKey model provider
    ⟨true, false, chain3 lc dc bs⟩ h paths h1 hune hHasKey
  have hstitles : ensureTitles apiKey model provider paths ≠ [] := by
    intro hc
    rw [ensureTitles, List.map_eq_nil_iff] at hc
    rw [hc] at hpu
    cases hpu
  have hmemclean : ((cleanTitles (ensureTitles apiKey model provider
      paths)).lookup (goTrimSpace p)).isSome = true := by
    refine cleanTitles_lookup_of_mem _ p
      (fallbackTitle p (generateNormalizedTitle apiKey model
        (provider p)).1) ?_ hptrim
    exact List.mem_map_of_mem _ hpu
  have hclean : cleanTitles (ensureTitles apiKey model provider paths) ≠
      [] := by
    intro hc
    rw [hc] at hmemclean
    cases hmemclean
  have hfresh : bs.lookup h = none := by
    refine chain3_has_false lc dc bs h ?_
    rw [← has_settings_chain3 false lc dc bs h hnorm hne]
    exact hHas
  have hstore : StoreDLNATitles ⟨true, false, chain3 lc dc bs⟩
      (goToLower (goTrimSpace h))
      (ensureTitles apiKey model provider paths) =
      ⟨true, false, storeDLNATitles (chain3 lc dc bs) h
        (cleanTitles (ensureTitles apiKey model provider paths))⟩ := by
    rw [hn]
    unfold StoreDLNATitles
    rw [if_neg (by simp), if_neg (by
      rintro (hc | hc)
      · exact hne (hnorm ▸ hc)
      · rw [List.isEmpty_iff] at hc
        exact hstitles hc),
      if_neg (by simpa [List.isEmpty_iff] using hclean), hnorm]
  refine ⟨?_, ?_, ?_, ?_, ?_⟩
  · intro q hq
    constructor
    · exact lookup_map_self _ _ q hq
    · exact fallbackTitle_ne_empty q _ (uniquePathsOf_spec paths [] q hq).1
  · intro q e herr
    rw [herr]
    rfl
  · rw [hrun]
    dsimp only
    rw [hstore]
    show createDLNATitleBucket bs h
      (cleanTitles (ensureTitles apiKey model provider paths)) = _
    unfold createDLNATitleBucket
    rw [if_neg (by simpa [List.isEmpty_iff] using hclean), hfresh]
    rfl
  · rw [hrun]
    dsimp only
    have := has_after_store lc dc bs h
      (ensureTitles apiKey model provider paths) hnorm hne hstitles hclean
    rw [hn]
    exact this
  · intro k v hkv
    obtain ⟨q, hqmem⟩ := cleanTitles_value_mem _ k v hkv
    rw [ensureTitles] at hqmem
    obtain ⟨r, hr, hrv⟩ := List.mem_map.mp hqmem
    have hv : v = fallbackTitle r (generateNormalizedTitle apiKey model
        (provider r)).1 := by
      have := congrArg Prod.snd hrv
      simpa using this.symm
    rw [hv]
    exact fallbackTitle_ne_empty r _ (uniquePathsOf_spec paths [] r hr).1

/-- C5 counterexample to the claim as stated: a failing generation stores
the trimmed path, not the original path string — for the path `" a "` the
stored bucket entry is `("a", "a")`. -/
theorem C5_counterexample :
    bucketsOf (EnsureTorrent "" "m" (fun _ _ => .reqErr)
      ⟨true, false, chain3 [] [] []⟩ "ab" [" a "]).1.db =
      [("ab", [("a", "a")])] ∧ (" a " : String) ≠ "a" := by
  constructor
  · decide
  · decide

/-- Witness for C5: with a provider failing on every call, the bucket is
still stored. -/
theorem C5_per_path_degradation_witness :
    HasDLNATitleBucket (EnsureTorrent "k" "m" (fun _ _ => .reqErr)
      ⟨true, false, chain3 [] [] []⟩ "ab" ["f.mkv"]).1 "ab" = true :=
  (C5_per_path_degradation "k" "m" (fun _ _ => .reqErr) [] [] [] "ab"
    ["f.mkv"] (by decide) (by decide) (by decide)
    ⟨"f.mkv", by decide, by decide⟩).2.2.2.1

/- ## C6 — collision-safe naming -/

theorem streamLinkEntries_naming (s : SettingsState)
    (hashHex baseURL : String) (esc : String → String)
    (allowed : List String) (files : List FileStat) :
    ∀ (counts : List (String × Nat)) (pre : List String),
      (∀ b, ((counts.lookup b).getD 0) = pre.count b) →
      ∀ i : Nat,
        ((streamLinkEntries s hashHex baseURL esc allowed files
          counts)[i]?).map Prod.fst =
        (((keptFiles allowed files).map (linkBaseName s hashHex))[i]?).map
          (fun b =>
            (if 0 < (pre ++ ((keptFiles allowed files).map
                (linkBaseName s hashHex)).take i).count b then
              b ++ " (" ++ toString ((pre ++ ((keptFiles allowed
                files).map (linkBaseName s hashHex)).take i).count b + 1)
                ++ ")"
            else b) ++ ".strmlnk") := by
  induction files with
  | nil => intro counts pre hinv i; rfl
  | cons f rest ih =>
    intro counts pre hinv i
    by_cases hskip : f.path = "" ∨ f.path ∉ allowed
    · have hkept : keptFiles allowed (f :: rest) =
          keptFiles allowed rest := by
        unfold keptFiles
        rw [List.filter_cons, if_neg (by
          simp only [decide_eq_true_eq, Decidable.not_not]
          exact hskip)]
      rw [streamLinkEntries, if_pos hskip, hkept]
      exact ih counts pre hinv i
    · have hkept : keptFiles allowed (f :: rest) =
          f :: keptFiles allowed rest := by
        unfold keptFiles
        rw [List.filter_cons,
          if_pos (by simp only [decide_eq_true_eq]; exact hskip)]
      rw [streamLinkEntries, if_neg hskip, hkept]
      dsimp only
      cases i with
      | zero =>
        simp only [List.map_cons, List.getElem?_cons_zero, Option.map_some,
          List.take_zero, List.append_nil, Prod.fst]
        rw [hinv (linkBaseName s hashHex f)]
        rfl
      | succ i =>
        simp only [List.map_cons, List.getElem?_cons_succ,
          List.take_succ_cons]
        have hpre : ∀ b : String,
            (pre ++ (linkBaseName s hashHex f ::
              ((keptFiles allowed rest).map
                (linkBaseName s hashHex)).take i)).count b =
            ((pre ++ [linkBaseName s hashHex f]) ++
              ((keptFiles allowed rest).map
                (linkBaseName s hashHex)).take i).count b := by
          intro b
          rw [List.append_assoc]
          rfl
        have hinv2 : ∀ b,
            (((assocSet counts (linkBaseName s hashHex f)
              ((counts.lookup (linkBaseName s hashHex f)).getD 0 +
                1)).lookup b).getD 0) =
            (pre ++ [linkBaseName s hashHex f]).count b := by
          intro b
          by_cases hb : b = linkBaseName s hashHex f
          · rw [hb, assocSet_lookup_self]
            simp only [Option.getD_some, List.count_append]
            rw [hinv (linkBaseName s hashHex f)]
            simp [List.count_cons]
          · rw [assocSet_lookup_ne _ _ _ _ hb]
            rw [hinv b]
            simp only [List.count_append]
            have hz : List.count b [linkBaseName s hashHex f] = 0 := by
              simp [List.count_cons, hb]
            rw [hz, Nat.add_zero]
        have := ih (assocSet counts (linkBaseName s hashHex f)
          ((counts.lookup (linkBaseName s hashHex f)).getD 0 + 1))
          (pre ++ [linkBaseName s hashHex f]) hinv2 i
        rw [this]
        congr 1
        funext b
        rw [hpre b]

/-- C6: within one projection run, when several kept media files yield the
same sanitized base name, the first occurrence (in file-listing order) is
written as `<base>.strmlnk` and the n-th occurrence as
`<base> (n).strmlnk`: the name of the i-th written link file is determined
by the number of earlier kept files with the same base name. -/
theorem C6_collision_naming (s : SettingsState)
    (hashHex baseURL : String) (esc : String → String)
    (allowed : List String) (files : List FileStat) (i : Nat) :
    ((streamLinkEntries s hashHex baseURL esc allowed files
      [])[i]?).map Prod.fst =
    (((keptFiles allowed files).map (linkBaseName s hashHex))[i]?).map
      (fun b =>
        (if 0 < (((keptFiles allowed files).map
            (linkBaseName s hashHex)).take i).count b then
          b ++ " (" ++ toString ((((keptFiles allowed files).map
            (linkBaseName s hashHex)).take i).count b + 1) ++ ")"
        else b) ++ ".strmlnk") := by
  have h := streamLinkEntries_naming s hashHex baseURL esc allowed files
    [] [] (by intro b; rfl) i
  simpa using h

/- ## C7 — sanitization -/

theorem sanitizeLoop_length (cs : List Char) :
    ∀ len : Nat, len < 200 → (sanitizeLoop cs len).length ≤ 200 - len := by
  induction cs with
  | nil => intro len _; simp [sanitizeLoop]
  | cons c rest ih =>
    intro len hlen
    rw [sanitizeLoop]
    split
    · exact ih len hlen
    · dsimp only
      set e := (if c ∈ reservedChars then '_' else c) with hedef
      have hpos := Char.utf8Size_pos e
      split
      · simp only [List.length_cons, List.length_nil]
        omega
      · have hrec := ih (len + e.utf8Size) (by omega)
        simp only [List.length_cons]
        omega

theorem sanitizeLoop_chars (cs : List Char) :
    ∀ (len : Nat) (c : Char), c ∈ sanitizeLoop cs len →
      ¬(c.toNat < 32 ∨ c.toNat = 127) ∧ c ∉ reservedChars := by
  induction cs with
  | nil => intro len c hc; cases hc
  | cons d rest ih =>
    intro len c hc
    rw [sanitizeLoop] at hc
    split at hc
    · exact ih len c hc
    · next hctrl =>
      dsimp only at hc
      set e := (if d ∈ reservedChars then '_' else d) with hedef
      have he : ¬(e.toNat < 32 ∨ e.toNat = 127) ∧ e ∉ reservedChars := by
        rw [hedef]
        by_cases hres : d ∈ reservedChars
        · rw [if_pos hres]
          decide
        · rw [if_neg hres]
          exact ⟨hctrl, hres⟩
      split at hc
      · rw [List.mem_singleton] at hc
        rw [hc]
        exact he
      · rcases List.mem_cons.mp hc with hcd | hmem
        · rw [hcd]
          exact he
        · exact ih _ c hmem

theorem mem_trimCutset (cs : List Char) (c : Char)
    (hc : c ∈ trimCutset cs) : c ∈ cs := by
  unfold trimCutset at hc
  rw [List.mem_reverse] at hc
  have h1 : c ∈ (cs.dropWhile
      (fun d => decide (d ∈ [' ', '.', '_']))).reverse :=
    List.Sublist.mem hc (List.dropWhile_sublist _)
  rw [List.mem_reverse] at h1
  exact List.Sublist.mem h1 (List.dropWhile_sublist _)

theorem getLast?_dropWhile (p : Char → Bool) (l : List Char) :
    ∀ c : Char, (l.dropWhile p).getLast? = some c →
      l.getLast? = some c := by
  induction l with
  | nil => intro c hc; cases hc
  | cons a rest ih =>
    intro c hc
    rw [List.dropWhile_cons] at hc
    split at hc
    · have hr := ih c hc
      rw [List.getLast?_cons, hr]
      rfl
    · exact hc

theorem trimCutset_head (cs : List Char) (c : Char)
    (hc : (trimCutset cs).head? = some c) : c ∉ [' ', '.', '_'] := by
  unfold trimCutset at hc
  rw [List.head?_reverse] at hc
  have hlast := getLast?_dropWhile _ _ c hc
  rw [List.getLast?_reverse] at hlast
  have := List.head?_dropWhile_not
    (fun d => decide (d ∈ [' ', '.', '_'])) cs
  rw [hlast] at this
  simpa using this

theorem trimCutset_last (cs : List Char) (c : Char)
    (hc : (trimCutset cs).getLast? = some c) : c ∉ [' ', '.', '_'] := by
  unfold trimCutset at hc
  rw [List.getLast?_reverse] at hc
  have := List.head?_dropWhile_not
    (fun d => decide (d ∈ [' ', '.', '_']))
    ((cs.dropWhile (fun d => decide (d ∈ [' ', '.', '_']))).reverse)
  rw [hc] at this
  simpa using this

theorem sanitizeLoop_id (cs : List Char) :
    ∀ len : Nat,
      (∀ c ∈ cs, ¬(c.toNat < 32 ∨ c.toNat = 127) ∧ c ∉ reservedChars) →
      len + (cs.map Char.utf8Size).sum ≤ 200 →
      sanitizeLoop cs len = cs := by
  induction cs with
  | nil => intro len _ _; rfl
  | cons c rest ih =>
    intro len hclean hsum
    obtain ⟨hctrl, hres⟩ := hclean c (List.mem_cons_self _ _)
    rw [sanitizeLoop, if_neg hctrl]
    dsimp only
    rw [if_neg hres]
    simp only [List.map_cons, List.sum_cons] at hsum
    split
    · next hge =>
      have hrest : rest = [] := by
        by_contra hrne
        have : 1 ≤ (rest.map Char.utf8Size).sum := by
          cases rest with
          | nil => exact absurd rfl hrne
          | cons r rs =>
            simp only [List.map_cons, List.sum_cons]
            have := Char.utf8Size_pos r
            omega
        omega
      rw [hrest]
    · refine congrArg (c :: ·) (ih (len + c.utf8Size)
        (fun d hd => hclean d (List.mem_cons_of_mem _ hd)) (by omega))

theorem dropWhile_eq_self_of_head (p : Char → Bool) (l : List Char)
    (h : ∀ c, l.head? = some c → p c = false) : l.dropWhile p = l := by
  cases l with
  | nil => rfl
  | cons a t =>
    rw [List.dropWhile_cons, if_neg (by simp [h a rfl])]

theorem trimCutset_id (cs : List Char)
    (hhead : ∀ c, cs.head? = some c → c ∉ [' ', '.', '_'])
    (hlast : ∀ c, cs.getLast? = some c → c ∉ [' ', '.', '_']) :
    trimCutset cs = cs := by
  unfold trimCutset
  rw [dropWhile_eq_self_of_head _ cs (fun c hc => by
    simpa using hhead c hc)]
  rw [dropWhile_eq_self_of_head _ cs.reverse (fun c hc => by
    rw [List.head?_reverse] at hc
    simpa using hlast c hc)]
  exact List.reverse_reverse cs

theorem trimCutset_length (cs : List Char) :
    (trimCutset cs).length ≤ cs.length := by
  unfold trimCutset
  rw [List.length_reverse]
  refine le_trans
    (List.Sublist.length_le (List.dropWhile_sublist _)) ?_
  rw [List.length_reverse]
  exact List.Sublist.length_le (List.dropWhile_sublist _)

theorem sanitizeLoop_eq_capBudget (cs : List Char) :
    ∀ len : Nat,
      sanitizeLoop cs len =
        capBudget ((cs.filter
            (fun c => ¬(c.toNat < 32 ∨ c.toNat = 127))).map
          (fun c => if c ∈ reservedChars then '_' else c)) len := by
  induction cs with
  | nil => intro len; rfl
  | cons c rest ih =>
    intro len
    rw [sanitizeLoop]
    by_cases hctrl : c.toNat < 32 ∨ c.toNat = 127
    · have hdrop : ¬((decide ¬(c.toNat < 32 ∨ c.toNat = 127)) = true) := by
        simp only [decide_eq_true_eq]
        exact not_not_intro hctrl
      rw [if_pos hctrl, List.filter_cons, if_neg hdrop]
      exact ih len
    · have hkeep : (decide ¬(c.toNat < 32 ∨ c.toNat = 127)) = true := by
        simp only [decide_eq_true_eq]
        exact hctrl
      rw [if_neg hctrl, List.filter_cons, if_pos hkeep, List.map_cons,
        capBudget]
      dsimp only
      rw [ih]

/-- C7 (amended): `sanitizeFileName` is, verbatim, the claimed pipeline —
trim surrounding whitespace, drop the control characters and DEL, map
each reserved character to an underscore (reserved characters are
replaced, not deleted, and every other character is preserved in place),
stop once the 200-byte budget is reached, and trim separators/dots/spaces
from BOTH ends (leading as well as trailing); consequently the result has
at most 200 characters, holds no control or reserved character, starts
and ends outside the cut set, and an input already in normal form is
returned unchanged; an empty result makes the caller fall back to the
sanitized info name and then the hash. -/
theorem C7_sanitize (s : String) :
    (sanitizeFileName s =
      if goTrimSpace s = "" then ""
      else String.mk (trimCutset (capBudget
        (((goTrimSpace s).data.filter
            (fun c => ¬(c.toNat < 32 ∨ c.toNat = 127))).map
          (fun c => if c ∈ reservedChars then '_' else c)) 0))) ∧
    ((sanitizeFileName s).data.length ≤ 200) ∧
    (∀ c ∈ (sanitizeFileName s).data,
      ¬(c.toNat < 32 ∨ c.toNat = 127) ∧ c ∉ reservedChars) ∧
    (∀ c, (sanitizeFileName s).data.head? = some c →
      c ∉ [' ', '.', '_']) ∧
    (∀ c, (sanitizeFileName s).data.getLast? = some c →
      c ∉ [' ', '.', '_']) ∧
    (goTrimSpace s = s → s ≠ "" →
      (∀ c ∈ s.data, ¬(c.toNat < 32 ∨ c.toNat = 127) ∧
        c ∉ reservedChars) →
      (∀ c, s.data.head? = some c → c ∉ [' ', '.', '_']) →
      (∀ c, s.data.getLast? = some c → c ∉ [' ', '.', '_']) →
      (s.data.map Char.utf8Size).sum ≤ 200 →
      sanitizeFileName s = s) ∧
    (∀ title infoName hashHex : String, ∀ hasInfo : Bool,
      (sanitizeFileName title ≠ "" →
        chooseDirName title infoName hasInfo hashHex =
          sanitizeFileName title) ∧
      (sanitizeFileName title = "" → hasInfo = true →
        sanitizeFileName infoName ≠ "" →
        chooseDirName title infoName hasInfo hashHex =
          sanitizeFileName infoName) ∧
      (sanitizeFileName title = "" →
        (hasInfo = false ∨ sanitizeFileName infoName = "") →
        chooseDirName title infoName hasInfo hashHex = hashHex)) := by
  refine ⟨?_, ?_, ?_, ?_, ?_, ?_, ?_⟩
  · unfold sanitizeFileName
    dsimp only
    by_cases hempty : goTrimSpace s = ""
    · rw [if_pos hempty, if_pos hempty]
    · rw [if_neg hempty, if_neg hempty, sanitizeLoop_eq_capBudget]
  · unfold sanitizeFileName
    dsimp only
    split
    · simp
    · refine le_trans (trimCutset_length _) ?_
      have := sanitizeLoop_length (goTrimSpace s).data 0 (by omega)
      simpa using this
  · unfold sanitizeFileName
    dsimp only
    split
    · intro c hc
      simp at hc
    · intro c hc
      exact sanitizeLoop_chars _ _ c (mem_trimCutset _ c hc)
  · unfold sanitizeFileName
    dsimp only
    split
    · intro c hc
      cases hc
    · intro c hc
      exact trimCutset_head _ c hc
  · unfold sanitizeFileName
    dsimp only
    split
    · intro c hc
      cases hc
    · intro c hc
      exact trimCutset_last _ c hc
  · intro hts hne hclean hhead hlast hsum
    unfold sanitizeFileName
    dsimp only
    rw [hts, if_neg hne]
    rw [sanitizeLoop_id s.data 0 hclean (by omega)]
    rw [trimCutset_id s.data hhead hlast]
  · intro title infoName hashHex hasInfo
    refine ⟨?_, ?_, ?_⟩
    · intro hne
      simp [chooseDirName, hne]
    · intro heq hinfo hne
      simp [chooseDirName, heq, hinfo, hne]
    · intro heq hcase
      rcases hcase with hfalse | hempty
      · simp [chooseDirName, heq, hfalse]
      · by_cases hinfo : hasInfo = true
        · simp [chooseDirName, heq, hempty, hinfo]
        · have hfalse : hasInfo = false := by
            rw [← Bool.not_eq_true]
            exact hinfo
          simp [chooseDirName, heq, hfalse]

/-- C7 counterexample to the claim as stated: a leading dot is neither a
control nor a reserved character, yet `sanitizeFileName` (which trims the
cut set from both ends, not only the trailing end) removes it. -/
theorem C7_counterexample :
    sanitizeFileName ".abc" = "abc" ∧
    ¬(Char.toNat '.' < 32 ∨ Char.toNat '.' = 127) ∧
    '.' ∉ reservedChars ∧ (".abc" : String) ≠ "abc" := by
  refine ⟨by decide, by decide, by decide, by decide⟩

/-- Witness for C7: a clean title is preserved verbatim, and a reserved
character is replaced by an underscore (via the pipeline conjunct), not
deleted. -/
theorem C7_sanitize_witness :
    sanitizeFileName "Movie (2020)" = "Movie (2020)" ∧
    sanitizeFileName "a/b" = "a_b" :=
  ⟨(C7_sanitize "Movie (2020)").2.2.2.2.2.1 (by decide) (by decide)
    (by decide) (by decide) (by decide) (by decide),
   ((C7_sanitize "a/b").1).trans (by decide)⟩

/- ## C8 — projector title fallback on cache miss -/

theorem head?_trim_aux (p : Char → Bool) (l : List Char) (c : Char)
    (hc : ((l.dropWhile p).reverse.dropWhile p).reverse.head? = some c) :
    p c = false := by
  rw [List.head?_reverse] at hc
  have hlast := getLast?_dropWhile p _ c hc
  rw [List.getLast?_reverse] at hlast
  have h := List.head?_dropWhile_not p l
  rw [hlast] at h
  exact h

theorem getLast?_trim_aux (p : Char → Bool) (l : List Char) (c : Char)
    (hc : ((l.dropWhile p).reverse.dropWhile p).reverse.getLast? =
      some c) : p c = false := by
  rw [List.getLast?_reverse] at hc
  have h := List.head?_dropWhile_not p ((l.dropWhile p).reverse)
  rw [hc] at h
  exact h

theorem doubleDrop_idem (p : Char → Bool) (l : List Char) :
    ((((((l.dropWhile p).reverse.dropWhile p).reverse).dropWhile
      p).reverse.dropWhile p).reverse) =
    ((l.dropWhile p).reverse.dropWhile p).reverse := by
  rw [dropWhile_eq_self_of_head p
    ((l.dropWhile p).reverse.dropWhile p).reverse
    (fun c hc => head?_trim_aux p l c hc)]
  rw [dropWhile_eq_self_of_head p
    (((l.dropWhile p).reverse.dropWhile p).reverse).reverse
    (fun c hc => by
      rw [List.head?_reverse] at hc
      exact getLast?_trim_aux p l c hc)]
  exact List.reverse_reverse _

theorem goTrimSpace_idem (s : String) :
    goTrimSpace (goTrimSpace s) = goTrimSpace s := by
  unfold goTrimSpace
  exact congrArg String.mk (doubleDrop_idem Char.isWhitespace s.data)

theorem sanitizeFileName_trim (s : String) :
    sanitizeFileName (goTrimSpace s) = sanitizeFileName s := by
  unfold sanitizeFileName
  rw [goTrimSpace_idem]

/-- C8 (amended): when the cache lookup misses (`GetDLNATitle` yields the
empty string), `Lookup` returns the full relative path, so for a path
that does not trim to empty the link-file base name is the sanitized FULL
relative path (slashes become underscores), with the `file-<id>` fallback
if even that sanitizes to empty; the file base-name (`filepath.Base`)
fallback applies only when the looked-up title trims to empty. -/
theorem C8_lookup_miss_basename (s : SettingsState) (hashHex : String)
    (f : FileStat) (hmiss : GetDLNATitle s hashHex f.path = "") :
    Lookup s hashHex f.path = f.path ∧
    (goTrimSpace f.path ≠ "" →
      linkBaseName s hashHex f =
        (if sanitizeFileName f.path = "" then "file-" ++ toString f.id
         else sanitizeFileName f.path)) ∧
    (goTrimSpace f.path = "" →
      linkBaseName s hashHex f =
        (if sanitizeFileName (filepathBase f.path) = "" then
          "file-" ++ toString f.id
         else sanitizeFileName (filepathBase f.path))) := by
  have hlookup : Lookup s hashHex f.path = f.path := by
    unfold Lookup
    rw [hmiss]
    simp
  refine ⟨hlookup, ?_, ?_⟩
  · intro hp
    unfold linkBaseName
    rw [hlookup]
    dsimp only
    rw [if_neg hp, sanitizeFileName_trim f.path]
  · intro hp
    unfold linkBaseName
    rw [hlookup]
    dsimp only
    rw [if_pos hp]

/-- C8 counterexample to the claim as stated: with an empty cache the
lookup misses, yet the base name for `dir/file.mkv` is built from the
full relative path (`dir_file.mkv`), not from the base name
`file.mkv`. -/
theorem C8_counterexample :
    linkBaseName ⟨true, false, chain3 [] [] []⟩ "ab"
      ⟨"dir/file.mkv", 0⟩ = "dir_file.mkv" ∧
    sanitizeFileName (filepathBase "dir/file.mkv") = "file.mkv" ∧
    ("dir_file.mkv" : String) ≠ "file.mkv" := by
  refine ⟨by decide, by decide, by decide⟩

/-- Witness for C8: concrete miss on `dir/file.mkv`. -/
theorem C8_lookup_miss_basename_witness :
    linkBaseName ⟨true, false, chain3 [] [] []⟩ "ab"
      ⟨"dir/file.mkv", 0⟩ =
      (if sanitizeFileName "dir/file.mkv" = "" then
        "file-" ++ toString (0 : Int)
       else sanitizeFileName "dir/file.mkv") :=
  (C8_lookup_miss_basename ⟨true, false, chain3 [] [] []⟩ "ab"
    ⟨"dir/file.mkv", 0⟩ (by decide)).2.1 (by decide)

/- ## C9 — per-torrent mutual exclusion -/

/-- The mutex-level safety invariant of the lock registry: every caller
inside the critical section holds a mutex that is marked locked, and no
two callers inside the critical section hold the same mutex instance. -/
def lockInv (s : LockSys) : Prop :=
  ∀ (i : Nat) (p : LockProc) (mu : Nat),
    s.procs[i]? = some p → p.phase = .critical mu →
    mu ∈ s.locked ∧
    ∀ (j : Nat) (q : LockProc) (mu2 : Nat), j ≠ i →
      s.procs[j]? = some q → q.phase = .critical mu2 → mu2 ≠ mu

theorem lockInv_set_noncritical (s : LockSys) (pid : Nat) (p2 : LockProc)
    (r2 : List (String × Nat)) (f2 : Nat)
    (hnc : ∀ mu, p2.phase ≠ LockPhase.critical mu)
    (hinv : lockInv s) :
    lockInv ⟨s.procs.set pid p2, r2, s.locked, f2⟩ := by
  intro i q mu hq hphase
  by_cases hi : i = pid
  · subst hi
    rw [List.getElem?_set_self'] at hq
    cases hcase : s.procs[i]? with
    | none => rw [hcase] at hq; cases hq
    | some p0 =>
      rw [hcase] at hq
      injection hq with hq
      rw [← hq] at hphase
      exact absurd hphase (hnc mu)
  · rw [List.getElem?_set_ne (fun hc => hi hc.symm)] at hq
    obtain ⟨hmem, hpair⟩ := hinv i q mu hq hphase
    refine ⟨hmem, ?_⟩
    intro j q2 mu2 hji hq2 hph2
    by_cases hj : j = pid
    · subst hj
      rw [List.getElem?_set_self'] at hq2
      cases hcase : s.procs[j]? with
      | none => rw [hcase] at hq2; cases hq2
      | some p0 =>
        rw [hcase] at hq2
        injection hq2 with hq2
        rw [← hq2] at hph2
        exact absurd hph2 (hnc mu2)
    · rw [List.getElem?_set_ne (fun hc => hj hc.symm)] at hq2
      exact hpair j q2 mu2 hji hq2 hph2

theorem lockStep_inv (s : LockSys) (a : LockAction) (s2 : LockSys)
    (hstep : lockStep s a = some s2) (hinv : lockInv s) : lockInv s2 := by
  cases a with
  | loadOrStore pid =>
    cases hp : s.procs[pid]? with
    | none => simp only [lockStep, hp] at hstep; cases hstep
    | some p =>
      cases hph : p.phase with
      | start =>
        cases hreg : s.registry.lookup p.hash with
        | some mu =>
          simp only [lockStep, hp, hph, hreg, Option.some.injEq] at hstep
          rw [← hstep]
          exact lockInv_set_noncritical s pid _ _ _
            (fun mu2 hc => by cases hc) hinv
        | none =>
          simp only [lockStep, hp, hph, hreg, Option.some.injEq] at hstep
          rw [← hstep]
          exact lockInv_set_noncritical s pid _ _ _
            (fun mu2 hc => by cases hc) hinv
      | waiting mu => simp only [lockStep, hp, hph] at hstep; cases hstep
      | critical mu => simp only [lockStep, hp, hph] at hstep; cases hstep
      | unlockedEntry mu => simp only [lockStep, hp, hph] at hstep; cases hstep
      | done => simp only [lockStep, hp, hph] at hstep; cases hstep
  | lock pid =>
    cases hp : s.procs[pid]? with
    | none => simp only [lockStep, hp] at hstep; cases hstep
    | some p =>
      cases hph : p.phase with
      | start => simp only [lockStep, hp, hph] at hstep; cases hstep
      | critical mu => simp only [lockStep, hp, hph] at hstep; cases hstep
      | unlockedEntry mu => simp only [lockStep, hp, hph] at hstep; cases hstep
      | done => simp only [lockStep, hp, hph] at hstep; cases hstep
      | waiting mu =>
        simp only [lockStep, hp, hph] at hstep
        by_cases hmu : mu ∈ s.locked
        · rw [if_pos hmu] at hstep
          cases hstep
        · rw [if_neg hmu] at hstep
          injection hstep with hs2
          rw [← hs2]
          intro i q mu2 hq hphase
          by_cases hi : i = pid
          · subst hi
            rw [List.getElem?_set_self', hp] at hq
            injection hq with hq
            rw [← hq] at hphase
            injection hphase with hmu2
            subst hmu2
            refine ⟨List.mem_cons_self _ _, ?_⟩
            intro j q2 mu3 hji hq2 hph2
            rw [List.getElem?_set_ne (fun hc => hji hc.symm)] at hq2
            obtain ⟨hmem3, _⟩ := hinv j q2 mu3 hq2 hph2
            intro hc
            rw [hc] at hmem3
            exact hmu hmem3
          · rw [List.getElem?_set_ne (fun hc => hi hc.symm)] at hq
            obtain ⟨hmem, hpair⟩ := hinv i q mu2 hq hphase
            refine ⟨List.mem_cons_of_mem _ hmem, ?_⟩
            intro j q2 mu3 hji hq2 hph2
            by_cases hj : j = pid
            · subst hj
              rw [List.getElem?_set_self', hp] at hq2
              injection hq2 with hq2
              rw [← hq2] at hph2
              injection hph2 with hmu3
              subst hmu3
              intro hc
              rw [hc] at hmu
              exact hmu hmem
            · rw [List.getElem?_set_ne (fun hc => hj hc.symm)] at hq2
              exact hpair j q2 mu3 hji hq2 hph2
  | unlockMutex pid =>
    cases hp : s.procs[pid]? with
    | none => simp only [lockStep, hp] at hstep; cases hstep
    | some p =>
      cases hph : p.phase with
      | start => simp only [lockStep, hp, hph] at hstep; cases hstep
      | waiting mu => simp only [lockStep, hp, hph] at hstep; cases hstep
      | unlockedEntry mu => simp only [lockStep, hp, hph] at hstep; cases hstep
      | done => simp only [lockStep, hp, hph] at hstep; cases hstep
      | critical mu =>
        simp only [lockStep, hp, hph, Option.some.injEq] at hstep
        rw [← hstep]
        intro i q mu2 hq hphase
        by_cases hi : i = pid
        · subst hi
          rw [List.getElem?_set_self', hp] at hq
          injection hq with hq
          rw [← hq] at hphase
          cases hphase
        · rw [List.getElem?_set_ne (fun hc => hi hc.symm)] at hq
          obtain ⟨hmem, hpair⟩ := hinv i q mu2 hq hphase
          have hmune : mu ≠ mu2 :=
            hpair pid p mu (fun hc => hi hc.symm) hp hph
          refine ⟨(List.mem_erase_of_ne (Ne.symm hmune)).mpr hmem, ?_⟩
          intro j q2 mu3 hji hq2 hph2
          by_cases hj : j = pid
          · subst hj
            rw [List.getElem?_set_self', hp] at hq2
            injection hq2 with hq2
            rw [← hq2] at hph2
            cases hph2
          · rw [List.getElem?_set_ne (fun hc => hj hc.symm)] at hq2
            exact hpair j q2 mu3 hji hq2 hph2
  | deleteEntry pid =>
    cases hp : s.procs[pid]? with
    | none => simp only [lockStep, hp] at hstep; cases hstep
    | some p =>
      cases hph : p.phase with
      | start => simp only [lockStep, hp, hph] at hstep; cases hstep
      | waiting mu => simp only [lockStep, hp, hph] at hstep; cases hstep
      | critical mu => simp only [lockStep, hp, hph] at hstep; cases hstep
      | done => simp only [lockStep, hp, hph] at hstep; cases hstep
      | unlockedEntry mu =>
        simp only [lockStep, hp, hph, Option.some.injEq] at hstep
        rw [← hstep]
        exact lockInv_set_noncritical s pid _ _ _
          (fun mu2 hc => by cases hc) hinv

theorem lockRun_inv (tr : List LockAction) :
    ∀ s s2 : LockSys, lockRun s tr = some s2 → lockInv s →
      lockInv s2 := by
  induction tr with
  | nil =>
    intro s s2 h hinv
    rw [lockRun] at h
    injection h with h
    rw [← h]
    exact hinv
  | cons a rest ih =>
    intro s s2 h hinv
    rw [lockRun] at h
    cases hstep : lockStep s a with
    | none => rw [hstep] at h; cases h
    | some smid =>
      rw [hstep] at h
      exact ih smid s2 h (lockStep_inv s a smid hstep hinv)

theorem lockInv_init (hs : List String) : lockInv (lockInit hs) := by
  intro i q mu hq hph
  exfalso
  unfold lockInit at hq
  have hmem := List.getElem?_mem hq
  obtain ⟨h, _, rfl⟩ := List.mem_map.mp hmem
  cases hph

/-- C9 (amended): mutex-instance-level exclusion holds — in every state
reachable from an initial system, no two callers inside the critical
section hold the same mutex instance (each mutex taken from the registry
excludes its own waiters) — but the unlock closure removes the registry
entry unconditionally: after any enabled `deleteEntry` step by a caller,
the registry holds no entry for that caller's hash, even while other
callers still reference (or hold) the mutex that was registered there.
The registry entry is therefore not removed "once unlocked and
unreferenced" but eagerly on every unlock. -/
theorem C9_lock_registry (hs : List String) (tr : List LockAction)
    (s2 : LockSys) (hrun : lockRun (lockInit hs) tr = some s2) :
    (∀ (i j : Nat) (p q : LockProc) (mu nu : Nat), i ≠ j →
      s2.procs[i]? = some p → s2.procs[j]? = some q →
      p.phase = .critical mu → q.phase = .critical nu → mu ≠ nu) ∧
    (∀ (s3 : LockSys) (pid : Nat) (p : LockProc),
      s2.procs[pid]? = some p →
      lockStep s2 (.deleteEntry pid) = some s3 →
      s3.registry.lookup p.hash = none) := by
  constructor
  · have hinv := lockRun_inv tr (lockInit hs) s2 hrun (lockInv_init hs)
    intro i j p q mu nu hij hp hq hpp hqp
    obtain ⟨_, hpair⟩ := hinv i p mu hp hpp
    exact (hpair j q nu (Ne.symm hij) hq hqp).symm
  · intro s3 pid p hp hstep
    cases hph : p.phase with
    | start => simp only [lockStep, hp, hph] at hstep; cases hstep
    | waiting mu => simp only [lockStep, hp, hph] at hstep; cases hstep
    | critical mu => simp only [lockStep, hp, hph] at hstep; cases hstep
    | done => simp only [lockStep, hp, hph] at hstep; cases hstep
    | unlockedEntry mu =>
      simp only [lockStep, hp, hph, Option.some.injEq] at hstep
      rw [← hstep]
      exact lookup_filter_fst_ne s2.registry p.hash

/-- C9 counterexample to the claim as stated: with three callers for the
same hash "h", the interleaving — caller 0 loads and locks mutex 0,
caller 1 loads (sharing mutex 0), caller 0 unlocks and deletes the
registry entry, caller 2 loads a fresh mutex 1 and locks it, caller 1
locks the now-free mutex 0 — reaches a state in which callers 1 and 2 are
both inside the critical section for the same torrent hash: generation
rounds for one torrent id are not totally ordered by the per-torrent
mutex, because `Delete` runs while the mutex is still referenced. -/
theorem C9_counterexample :
    ¬ ∀ (hs : List String) (tr : List LockAction) (s2 : LockSys),
        lockRun (lockInit hs) tr = some s2 →
        (criticalHashes s2).Nodup := by
  intro hall
  have h := hall ["h", "h", "h"]
    [.loadOrStore 0, .lock 0, .loadOrStore 1, .unlockMutex 0,
     .deleteEntry 0, .loadOrStore 2, .lock 2, .lock 1]
    ⟨[⟨"h", .done⟩, ⟨"h", .critical 0⟩, ⟨"h", .critical 1⟩],
      [("h", 1)], [0, 1], 2⟩ (by decide)
  exact absurd h (by decide)

/-- Witness for C9: one caller for "h" loads, locks and unlocks; the
delete conjunct applied to its `deleteEntry` step shows the registry no
longer holds an entry for "h". -/
theorem C9_lock_registry_witness :
    List.lookup "h"
      (LockSys.registry ⟨[⟨"h", LockPhase.done⟩], [], [], 1⟩) = none :=
  (C9_lock_registry ["h"]
    [.loadOrStore 0, .lock 0, .unlockMutex 0]
    ⟨[⟨"h", LockPhase.unlockedEntry 0⟩], [("h", 0)], [], 1⟩
    (by decide)).2
    ⟨[⟨"h", LockPhase.done⟩], [], [], 1⟩ 0
    ⟨"h", LockPhase.unlockedEntry 0⟩ (by decide) (by decide)
